import Mathlib

set_option maxHeartbeats 1000000
set_option maxRecDepth 4000

/-! # Shallow embedding of the xv6 buffer cache (kernel/bio.c)

The cache state is modelled functionally.  The fixed pool (`bcache.buf`) is a
list of buffer records indexed by position; each hash bucket's doubly linked
list is represented by the sequence of buffer indices obtained from its `head`
pointer by following `next` pointers.  Pushing a node at the head corresponds
to `List.cons` (both branches of the insertion in `bget` produce exactly this
sequence) and the pointer unlink in `brelse` corresponds to `List.erase` on the
list of the bucket `blockno % NBUCKET`, which in every well-formed state is the
only list that can contain the buffer.  Spinlock acquire/release pairs delimit
the atomic steps and are not otherwise modelled.  The per-buffer sleep-lock is
modelled by the flag `lockHeld` (the value `holdingsleep` tests), and
`acquiresleep` by setting the flag; blocking behaviour is out of scope.
`panic` is modelled by the `Res.fault` result; a faulting call returns no
state, matching the fact that the C failure paths mutate nothing before the
panic.  The disk transfers performed by a call (`virtio_disk_rw`) are returned
as an explicit trace of `DiskOp` records. -/

/-- `NBUCKET` from bio.c. -/
def NBUCKET : Nat := 13

/-- Modelled from the spec: the reference-count field `refcnt` is declared with
the C type `uint` in `buf.h`, a header of this repository that is not among the
given sources; `uint` (`typedef unsigned int`) is a 32-bit unsigned integer, so
its increments and decrements wrap modulo `2 ^ 32 = 4294967296`.  The spec (§3)
describes `refCount` as the number of contexts currently holding the buffer. -/
def U32 : Nat := 4294967296

/-- One cache slot (`struct buf`, fields used by bio.c).  `lockHeld` models
`holdingsleep(&b->lock)` for the calling context; `data` abstracts the payload
bytes. -/
structure Buf where
  dev : Nat
  blockno : Nat
  valid : Bool
  lockHeld : Bool
  refcnt : Nat
  data : Nat
deriving DecidableEq, Repr

/-- The zero-initialised buffer: the global `bcache` struct is in bss, so every
field starts at zero / null (`binit` only initialises the locks). -/
def buf0 : Buf :=
  { dev := 0, blockno := 0, valid := false, lockHeld := false, refcnt := 0, data := 0 }

/-- The whole cache: the fixed pool array plus the 13 bucket lists (each list
is the sequence of indices from the bucket's `head` following `next`). -/
structure BCache where
  bufs : List Buf
  buckets : List (List Nat)
deriving DecidableEq, Repr

/-- The three `panic` sites of bio.c, by message:
`bget: no buffers`, `bwrite`, `brelse`. -/
inductive Fault where
  | bgetNoBuffers
  | bwriteNotLocked
  | brelseNotLocked
deriving DecidableEq, Repr

/-- Result of an operation that can `panic`: a faulting path returns no state
(the C code mutates nothing before any of its panics). -/
inductive Res (α : Type) where
  | ok : α → Res α
  | fault : Fault → Res α
deriving DecidableEq, Repr

/-- One invocation of `virtio_disk_rw` with the buffer's identity at the time
of the call and the write flag. -/
structure DiskOp where
  dev : Nat
  blockno : Nat
  isWrite : Bool
deriving DecidableEq, Repr

/-- Read pool slot `i` (`&bcache.buf[i]`). -/
def getBuf (st : BCache) (i : Nat) : Buf := st.bufs.getD i buf0

/-- The list of bucket `k` (`bcache.buckets[k]`). -/
def bucketOf (st : BCache) (k : Nat) : List Nat := st.buckets.getD k []

/-- Update pool slot `i` in place. -/
def modifyBuf (st : BCache) (i : Nat) (f : Buf → Buf) : BCache :=
  { st with bufs := st.bufs.set i (f (st.bufs.getD i buf0)) }

/-- `binit` with pool size `n`: all buffers zero-initialised and detached, all
bucket heads null. -/
def binit (n : Nat) : BCache :=
  { bufs := List.replicate n buf0, buckets := List.replicate NBUCKET [] }

/-- The buffer update of a `bget` hit: `b->refcnt++` (unsigned, hence mod
`U32`) and `acquiresleep`. -/
def hitUpd (b : Buf) : Buf := { b with refcnt := (b.refcnt + 1) % U32, lockHeld := true }

/-- The buffer update of a `bget` miss on the recycled slot: `refcnt = 1`,
overwrite identity, `valid = 0`, `acquiresleep`. -/
def missUpd (dev blockno : Nat) (b : Buf) : Buf :=
  { b with refcnt := 1, dev := dev, blockno := blockno, valid := false, lockHeld := true }

/-- The payload fill of `bread`: `virtio_disk_rw(b, 0)` reading the disk block
into `data`, then `b->valid = 1`. -/
def fillUpd (disk : Nat → Nat → Nat) (c : Buf) : Buf :=
  { c with data := disk c.dev c.blockno, valid := true }

/-- The buffer update of `brelse` when `refcnt != 1`: `releasesleep` and the
unsigned decrement. -/
def decUpd (c : Buf) : Buf := { c with lockHeld := false, refcnt := (c.refcnt + U32 - 1) % U32 }

/-- The buffer update of the detach branch of `brelse`: `releasesleep` and
`refcnt = 0`. -/
def detachUpd (c : Buf) : Buf := { c with lockHeld := false, refcnt := 0 }

/-- The buffer update of `bpin`: unsigned `b->refcnt++`. -/
def pinUpd (b : Buf) : Buf := { b with refcnt := (b.refcnt + 1) % U32 }

/-- The buffer update of `bunpin`: unsigned `b->refcnt--` (0 wraps to
`U32 - 1`). -/
def unpinUpd (b : Buf) : Buf := { b with refcnt := (b.refcnt + U32 - 1) % U32 }

/-- The lookup loop of `bget`:
`for(b = bucket->head; b != 0; b = b->next) if(b->dev == dev && b->blockno == blockno)`.
Returns the first index on the bucket list whose buffer matches the identity. -/
def findInBucket (bufs : List Buf) (dev blockno : Nat) : List Nat → Option Nat
  | [] => none
  | i :: rest =>
    if (bufs.getD i buf0).dev = dev ∧ (bufs.getD i buf0).blockno = blockno then some i
    else findInBucket bufs dev blockno rest

/-- The recycling scan of `bget`:
`for(b = bcache.buf; b < bcache.buf+NBUF; b++) if(b->refcnt == 0)`.
Returns the first pool index with `refcnt == 0`. -/
def firstFree : List Buf → Option Nat
  | [] => none
  | b :: rest => if b.refcnt = 0 then some 0 else (firstFree rest).map (fun j => j + 1)

/-- `bget(dev, blockno)`.  Hit: increment `refcnt`, `acquiresleep`.  Miss:
recycle the first free pool slot (`refcnt = 1`, overwrite identity,
`valid = 0`), push it at the bucket's head (both branches of the C insertion
yield head-consing), `acquiresleep`.  No free slot: `panic("bget: no buffers")`. -/
def bget (st : BCache) (dev blockno : Nat) : Res (Nat × BCache) :=
  let bidx := blockno % NBUCKET
  let bucket := bucketOf st bidx
  match findInBucket st.bufs dev blockno bucket with
  | some i =>
      Res.ok (i, modifyBuf st i hitUpd)
  | none =>
      match firstFree st.bufs with
      | some j =>
          Res.ok (j,
            { modifyBuf st j (missUpd dev blockno)
                with buckets := st.buckets.set bidx (j :: bucket) })
      | none => Res.fault Fault.bgetNoBuffers

/-- `bread(dev, blockno)`: `bget`, then if `!b->valid` one call
`virtio_disk_rw(b, 0)` filling the payload from the disk (modelled by the
function `disk`) followed by `b->valid = 1`. -/
def bread (disk : Nat → Nat → Nat) (st : BCache) (dev blockno : Nat) :
    Res (Nat × BCache × List DiskOp) :=
  match bget st dev blockno with
  | Res.fault f => Res.fault f
  | Res.ok (i, st1) =>
      let b := getBuf st1 i
      if b.valid = false then
        Res.ok (i, modifyBuf st1 i (fillUpd disk),
          [{ dev := b.dev, blockno := b.blockno, isWrite := false }])
      else
        Res.ok (i, st1, [])

/-- `bwrite(b)`: `panic("bwrite")` unless the sleep-lock is held, otherwise one
unconditional `virtio_disk_rw(b, 1)`; no field of the cache state changes. -/
def bwrite (st : BCache) (i : Nat) : Res (BCache × List DiskOp) :=
  let b := getBuf st i
  if b.lockHeld = false then Res.fault Fault.bwriteNotLocked
  else Res.ok (st, [{ dev := b.dev, blockno := b.blockno, isWrite := true }])

/-- `brelse(b)`: `panic("brelse")` unless the sleep-lock is held; then
`releasesleep` and, under the bucket lock: if `refcnt != 1` just decrement,
else unlink from the doubly linked list and set `refcnt = 0`.  The
`releasesleep` is folded into the same buffer update as the `refcnt` change
(the fields are disjoint, so the net state is identical). -/
def brelse (st : BCache) (i : Nat) : Res BCache :=
  let b := getBuf st i
  if b.lockHeld = false then Res.fault Fault.brelseNotLocked
  else if b.refcnt ≠ 1 then
    Res.ok (modifyBuf st i decUpd)
  else
    Res.ok { modifyBuf st i detachUpd with
             buckets := st.buckets.set (b.blockno % NBUCKET)
                          ((bucketOf st (b.blockno % NBUCKET)).erase i) }

/-- `bpin(b)`: under the bucket lock, `b->refcnt++`, nothing else. -/
def bpin (st : BCache) (i : Nat) : BCache := modifyBuf st i pinUpd

/-- `bunpin(b)`: under the bucket lock, `b->refcnt--`, nothing else; unsigned
decrement, so `0` wraps to `U32 - 1`. -/
def bunpin (st : BCache) (i : Nat) : BCache := modifyBuf st i unpinUpd

/-- The state produced by the hit path of `bget` for slot `i`. -/
def hitState (st : BCache) (i : Nat) : BCache := modifyBuf st i hitUpd

/-- The state produced by the miss path of `bget` recycling slot `j`. -/
def missState (st : BCache) (dev blockno j : Nat) : BCache :=
  { modifyBuf st j (missUpd dev blockno)
    with buckets := st.buckets.set (blockno % NBUCKET)
                      (j :: bucketOf st (blockno % NBUCKET)) }

/-- The state produced by the `refcnt != 1` branch of `brelse`. -/
def relseDecState (st : BCache) (i : Nat) : BCache := modifyBuf st i decUpd

/-- The state produced by the detach branch of `brelse`. -/
def relseDetachState (st : BCache) (i : Nat) : BCache :=
  { modifyBuf st i detachUpd with
    buckets := st.buckets.set ((getBuf st i).blockno % NBUCKET)
                 ((bucketOf st ((getBuf st i).blockno % NBUCKET)).erase i) }

/-- One public operation of the cache, as a step relation on states. -/
inductive Step : BCache → BCache → Prop where
  | get : ∀ st dev blockno i st1, bget st dev blockno = Res.ok (i, st1) → Step st st1
  | read : ∀ disk st dev blockno i st1 ops,
      bread disk st dev blockno = Res.ok (i, st1, ops) → Step st st1
  | write : ∀ st i st1 ops, bwrite st i = Res.ok (st1, ops) → Step st st1
  | relse : ∀ st i st1, brelse st i = Res.ok st1 → Step st st1
  | pin : ∀ st i, i < st.bufs.length → Step st (bpin st i)
  | unpin : ∀ st i, i < st.bufs.length → Step st (bunpin st i)

/-- States reachable from initialization via the public operations. -/
inductive Reach : BCache → Prop where
  | init : ∀ n, Reach (binit n)
  | step : ∀ st st1, Reach st → Step st st1 → Reach st1

/-- Adjust a ghost per-buffer counter at index `i` by `d`. -/
def bump (g : Nat → Int) (i : Nat) (d : Int) : Nat → Int :=
  fun j => if j = i then g j + d else g j

/-- Reachability instrumented with a ghost counter: `g i` is the number of
outstanding un-released holders plus pins of pool slot `i` (each successful
`bget`/`bread` returning slot `i` adds one holder, each `brelse` removes one,
`bpin`/`bunpin` add and remove one pin).  This is the accounting notion used by
the spec's identity-sharing property; it is specification-level, not part of
the code. -/
inductive ReachC : BCache → (Nat → Int) → Prop where
  | init : ∀ n, ReachC (binit n) (fun _ => 0)
  | get : ∀ st g dev blockno i st1, ReachC st g →
      bget st dev blockno = Res.ok (i, st1) → ReachC st1 (bump g i 1)
  | read : ∀ disk st g dev blockno i st1 ops, ReachC st g →
      bread disk st dev blockno = Res.ok (i, st1, ops) → ReachC st1 (bump g i 1)
  | write : ∀ st g i st1 ops, ReachC st g →
      bwrite st i = Res.ok (st1, ops) → ReachC st1 g
  | relse : ∀ st g i st1, ReachC st g →
      brelse st i = Res.ok st1 → ReachC st1 (bump g i (-1))
  | pin : ∀ st g i, ReachC st g → i < st.bufs.length → ReachC (bpin st i) (bump g i 1)
  | unpin : ∀ st g i, ReachC st g → i < st.bufs.length → ReachC (bunpin st i) (bump g i (-1))

/-- The spec's detachment invariant: every buffer with `refCount == 0` is on no
bucket's list. -/
def DetachedWhenZero (st : BCache) : Prop :=
  ∀ i ∈ List.range st.bufs.length, (getBuf st i).refcnt = 0 →
    ∀ k ∈ List.range st.buckets.length, i ∉ bucketOf st k

/-- Pool slots `i` and `j` hold the same block identity. -/
def SameIdent (st : BCache) (i j : Nat) : Prop :=
  (getBuf st i).dev = (getBuf st j).dev ∧ (getBuf st i).blockno = (getBuf st j).blockno

/-- Well-formedness of a cache state: 13 buckets; every listed index is a real
pool slot, hashes to the bucket that lists it, and has nonzero `refcnt` (the
detachment invariant, contrapositive form); no duplicates on a bucket list; all
reference counts are in unsigned-32 range; and no two attached buffers share a
block identity. -/
def CacheInv (st : BCache) : Prop :=
  st.buckets.length = NBUCKET ∧
  (∀ k ∈ List.range NBUCKET, ∀ i ∈ bucketOf st k,
      i < st.bufs.length ∧ (getBuf st i).blockno % NBUCKET = k ∧ (getBuf st i).refcnt ≠ 0) ∧
  (∀ k ∈ List.range NBUCKET, (bucketOf st k).Nodup) ∧
  (∀ b ∈ st.bufs, b.refcnt < U32) ∧
  (∀ k ∈ List.range NBUCKET, (bucketOf st k).Pairwise (fun i j => ¬ SameIdent st i j))

/-- No reference count is about to overflow (needed for the increments of a
cache hit and of `bpin` to preserve `CacheInv`). -/
def RefBound (st : BCache) : Prop := ∀ b ∈ st.bufs, b.refcnt + 1 < U32

/-! ## Concrete states used by counterexamples and witnesses -/

/-- A disk returning zero for every block. -/
def dNull : Nat → Nat → Nat := fun _ _ => 0

/-- The state after `bget (binit 1) 0 0`: slot 0 recycled for block (0,0) and
attached at the head of bucket 0. -/
def stGet1 : BCache :=
  { bufs := [{ dev := 0, blockno := 0, valid := false, lockHeld := true, refcnt := 1, data := 0 }],
    buckets := ([0] : List Nat) :: List.replicate 12 [] }

/-- `stGet1` after `bunpin` on slot 0: `refcnt` dropped to 0 while the slot is
still attached to bucket 0. -/
def stUnpin1 : BCache := bunpin stGet1 0

/-- `stGet1` after the `bread` fill: `valid` set, payload from `dNull`. -/
def stRead1 : BCache := modifyBuf stGet1 0 (fillUpd dNull)

/-- Pool of two, after `bget (binit 2) 0 0`. -/
def s9a : BCache :=
  { bufs := [{ dev := 0, blockno := 0, valid := false, lockHeld := true, refcnt := 1, data := 0 },
             buf0],
    buckets := ([0] : List Nat) :: List.replicate 12 [] }

/-- `s9a` after `bget _ 0 13`: slot 1 recycled for block (0,13), which hashes
to the same bucket 0 and is pushed at its head. -/
def s9b : BCache :=
  { bufs := [{ dev := 0, blockno := 0, valid := false, lockHeld := true, refcnt := 1, data := 0 },
             { dev := 0, blockno := 13, valid := false, lockHeld := true, refcnt := 1, data := 0 }],
    buckets := ([1, 0] : List Nat) :: List.replicate 12 [] }

/-- `s9b` after a second `bget _ 0 0`: a hit on slot 0, `refcnt` now 2. -/
def s9c : BCache :=
  { bufs := [{ dev := 0, blockno := 0, valid := false, lockHeld := true, refcnt := 2, data := 0 },
             { dev := 0, blockno := 13, valid := false, lockHeld := true, refcnt := 1, data := 0 }],
    buckets := ([1, 0] : List Nat) :: List.replicate 12 [] }

/-- `s9c` after `brelse` on slot 0: `refcnt` back to 1; the bucket list is
untouched, so slot 0 is still behind slot 1, not at the head. -/
def s9d : BCache :=
  { bufs := [{ dev := 0, blockno := 0, valid := false, lockHeld := false, refcnt := 1, data := 0 },
             { dev := 0, blockno := 13, valid := false, lockHeld := true, refcnt := 1, data := 0 }],
    buckets := ([1, 0] : List Nat) :: List.replicate 12 [] }

/-- A pool of two with both slots held (refcnt 1) for the distinct identities
(0,0) and (0,1): the exhaustion scenario with `N = 2`. -/
def stFull : BCache :=
  { bufs := [{ dev := 0, blockno := 0, valid := false, lockHeld := true, refcnt := 1, data := 0 },
             { dev := 0, blockno := 1, valid := false, lockHeld := true, refcnt := 1, data := 0 }],
    buckets := ([0] : List Nat) :: ([1] : List Nat) :: List.replicate 11 [] }

instance (st : BCache) : Decidable (DetachedWhenZero st) := by
  unfold DetachedWhenZero; infer_instance

instance (st : BCache) (i j : Nat) : Decidable (SameIdent st i j) := by
  unfold SameIdent; infer_instance

instance (st : BCache) : Decidable (CacheInv st) := by
  unfold CacheInv; infer_instance

instance (st : BCache) : Decidable (RefBound st) := by
  unfold RefBound; infer_instance

/-! ## Projection lemmas for the buffer updates

Stated over an exploded buffer so that the elaborator reduces the structure
projections by iota and never compares the (huge-literal) `refcnt` arithmetic
against an opaque term. -/

@[simp] theorem hitUpd_dev (b : Buf) : (hitUpd b).dev = b.dev := by cases b; rfl
@[simp] theorem hitUpd_blockno (b : Buf) : (hitUpd b).blockno = b.blockno := by cases b; rfl
@[simp] theorem hitUpd_valid (b : Buf) : (hitUpd b).valid = b.valid := by cases b; rfl
@[simp] theorem hitUpd_lockHeld (b : Buf) : (hitUpd b).lockHeld = true := by cases b; rfl
@[simp] theorem hitUpd_refcnt (b : Buf) : (hitUpd b).refcnt = (b.refcnt + 1) % U32 := by
  cases b; rfl
@[simp] theorem hitUpd_data (b : Buf) : (hitUpd b).data = b.data := by cases b; rfl

@[simp] theorem missUpd_dev (d bl : Nat) (b : Buf) : (missUpd d bl b).dev = d := by cases b; rfl
@[simp] theorem missUpd_blockno (d bl : Nat) (b : Buf) : (missUpd d bl b).blockno = bl := by
  cases b; rfl
@[simp] theorem missUpd_valid (d bl : Nat) (b : Buf) : (missUpd d bl b).valid = false := by
  cases b; rfl
@[simp] theorem missUpd_lockHeld (d bl : Nat) (b : Buf) : (missUpd d bl b).lockHeld = true := by
  cases b; rfl
@[simp] theorem missUpd_refcnt (d bl : Nat) (b : Buf) : (missUpd d bl b).refcnt = 1 := by
  cases b; rfl
@[simp] theorem missUpd_data (d bl : Nat) (b : Buf) : (missUpd d bl b).data = b.data := by
  cases b; rfl

@[simp] theorem fillUpd_dev (dk : Nat → Nat → Nat) (b : Buf) : (fillUpd dk b).dev = b.dev := by
  cases b; rfl
@[simp] theorem fillUpd_blockno (dk : Nat → Nat → Nat) (b : Buf) :
    (fillUpd dk b).blockno = b.blockno := by cases b; rfl
@[simp] theorem fillUpd_valid (dk : Nat → Nat → Nat) (b : Buf) :
    (fillUpd dk b).valid = true := by cases b; rfl
@[simp] theorem fillUpd_lockHeld (dk : Nat → Nat → Nat) (b : Buf) :
    (fillUpd dk b).lockHeld = b.lockHeld := by cases b; rfl
@[simp] theorem fillUpd_refcnt (dk : Nat → Nat → Nat) (b : Buf) :
    (fillUpd dk b).refcnt = b.refcnt := by cases b; rfl
@[simp] theorem fillUpd_data (dk : Nat → Nat → Nat) (b : Buf) :
    (fillUpd dk b).data = dk b.dev b.blockno := by cases b; rfl

@[simp] theorem decUpd_dev (b : Buf) : (decUpd b).dev = b.dev := by cases b; rfl
@[simp] theorem decUpd_blockno (b : Buf) : (decUpd b).blockno = b.blockno := by cases b; rfl
@[simp] theorem decUpd_valid (b : Buf) : (decUpd b).valid = b.valid := by cases b; rfl
@[simp] theorem decUpd_lockHeld (b : Buf) : (decUpd b).lockHeld = false := by cases b; rfl
@[simp] theorem decUpd_refcnt (b : Buf) : (decUpd b).refcnt = (b.refcnt + U32 - 1) % U32 := by
  cases b; rfl
@[simp] theorem decUpd_data (b : Buf) : (decUpd b).data = b.data := by cases b; rfl

@[simp] theorem detachUpd_dev (b : Buf) : (detachUpd b).dev = b.dev := by cases b; rfl
@[simp] theorem detachUpd_blockno (b : Buf) : (detachUpd b).blockno = b.blockno := by cases b; rfl
@[simp] theorem detachUpd_valid (b : Buf) : (detachUpd b).valid = b.valid := by cases b; rfl
@[simp] theorem detachUpd_lockHeld (b : Buf) : (detachUpd b).lockHeld = false := by cases b; rfl
@[simp] theorem detachUpd_refcnt (b : Buf) : (detachUpd b).refcnt = 0 := by cases b; rfl
@[simp] theorem detachUpd_data (b : Buf) : (detachUpd b).data = b.data := by cases b; rfl

@[simp] theorem pinUpd_dev (b : Buf) : (pinUpd b).dev = b.dev := by cases b; rfl
@[simp] theorem pinUpd_blockno (b : Buf) : (pinUpd b).blockno = b.blockno := by cases b; rfl
@[simp] theorem pinUpd_valid (b : Buf) : (pinUpd b).valid = b.valid := by cases b; rfl
@[simp] theorem pinUpd_lockHeld (b : Buf) : (pinUpd b).lockHeld = b.lockHeld := by cases b; rfl
@[simp] theorem pinUpd_refcnt (b : Buf) : (pinUpd b).refcnt = (b.refcnt + 1) % U32 := by
  cases b; rfl
@[simp] theorem pinUpd_data (b : Buf) : (pinUpd b).data = b.data := by cases b; rfl

@[simp] theorem unpinUpd_dev (b : Buf) : (unpinUpd b).dev = b.dev := by cases b; rfl
@[simp] theorem unpinUpd_blockno (b : Buf) : (unpinUpd b).blockno = b.blockno := by cases b; rfl
@[simp] theorem unpinUpd_valid (b : Buf) : (unpinUpd b).valid = b.valid := by cases b; rfl
@[simp] theorem unpinUpd_lockHeld (b : Buf) : (unpinUpd b).lockHeld = b.lockHeld := by
  cases b; rfl
@[simp] theorem unpinUpd_refcnt (b : Buf) :
    (unpinUpd b).refcnt = (b.refcnt + U32 - 1) % U32 := by cases b; rfl
@[simp] theorem unpinUpd_data (b : Buf) : (unpinUpd b).data = b.data := by cases b; rfl

/-! ## Basic list and state-update lemmas -/

theorem getD_set_self {α : Type} (l : List α) (i : Nat) (a d : α) (h : i < l.length) :
    (l.set i a).getD i d = a := by
  induction l generalizing i with
  | nil => simp at h
  | cons x xs ih =>
    cases i with
    | zero => simp
    | succ n => simpa using ih n (by simpa using h)

theorem getD_set_ne {α : Type} (l : List α) (i j : Nat) (a d : α) (h : i ≠ j) :
    (l.set i a).getD j d = l.getD j d := by
  induction l generalizing i j with
  | nil => simp
  | cons x xs ih =>
    cases i with
    | zero =>
      cases j with
      | zero => exact absurd rfl h
      | succ m => simp
    | succ n =>
      cases j with
      | zero => simp
      | succ m => simpa using ih n m (by omega)

theorem getBuf_modifyBuf_self (st : BCache) (i : Nat) (f : Buf → Buf)
    (h : i < st.bufs.length) : getBuf (modifyBuf st i f) i = f (getBuf st i) := by
  unfold getBuf modifyBuf
  exact getD_set_self _ _ _ _ h

theorem getBuf_modifyBuf_ne (st : BCache) (i j : Nat) (f : Buf → Buf) (h : i ≠ j) :
    getBuf (modifyBuf st i f) j = getBuf st j := by
  unfold getBuf modifyBuf
  exact getD_set_ne _ _ _ _ _ h

theorem modifyBuf_buckets (st : BCache) (i : Nat) (f : Buf → Buf) :
    (modifyBuf st i f).buckets = st.buckets := rfl

theorem modifyBuf_length (st : BCache) (i : Nat) (f : Buf → Buf) :
    (modifyBuf st i f).bufs.length = st.bufs.length := by
  simp [modifyBuf]

theorem bucketOf_modifyBuf (st : BCache) (i : Nat) (f : Buf → Buf) (k : Nat) :
    bucketOf (modifyBuf st i f) k = bucketOf st k := rfl

/-! ## Characterisation of the lookup loop -/

theorem findInBucket_eq_some (bufs : List Buf) (dev blockno : Nat) (l : List Nat) (i : Nat)
    (h : findInBucket bufs dev blockno l = some i) :
    i ∈ l ∧ (bufs.getD i buf0).dev = dev ∧ (bufs.getD i buf0).blockno = blockno := by
  induction l with
  | nil => simp [findInBucket] at h
  | cons x xs ih =>
    simp only [findInBucket] at h
    by_cases hx : (bufs.getD x buf0).dev = dev ∧ (bufs.getD x buf0).blockno = blockno
    · rw [if_pos hx] at h
      obtain rfl := Option.some.inj h
      exact ⟨List.mem_cons_self _ _, hx⟩
    · rw [if_neg hx] at h
      obtain ⟨hm, hd, hb⟩ := ih h
      exact ⟨List.mem_cons_of_mem _ hm, hd, hb⟩

theorem findInBucket_eq_none (bufs : List Buf) (dev blockno : Nat) (l : List Nat)
    (h : findInBucket bufs dev blockno l = none) :
    ∀ i ∈ l, ¬ ((bufs.getD i buf0).dev = dev ∧ (bufs.getD i buf0).blockno = blockno) := by
  induction l with
  | nil => simp
  | cons x xs ih =>
    simp only [findInBucket] at h
    by_cases hx : (bufs.getD x buf0).dev = dev ∧ (bufs.getD x buf0).blockno = blockno
    · rw [if_pos hx] at h
      exact absurd h (by simp)
    · rw [if_neg hx] at h
      intro i hi
      rcases List.mem_cons.mp hi with rfl | hi
      · exact hx
      · exact ih h i hi

/-- If slot `i` is on the list with the requested identity and no two listed
slots share an identity, the lookup loop returns exactly `i`. -/
theorem findInBucket_mem_eq (st : BCache) (dev blockno : Nat) (l : List Nat) (i : Nat)
    (hm : i ∈ l) (hd : (getBuf st i).dev = dev) (hb : (getBuf st i).blockno = blockno)
    (hp : l.Pairwise (fun a b => ¬ SameIdent st a b)) :
    findInBucket st.bufs dev blockno l = some i := by
  induction l with
  | nil => simp at hm
  | cons x xs ih =>
    rcases List.mem_cons.mp hm with rfl | hmem
    · have hx : (st.bufs.getD i buf0).dev = dev ∧ (st.bufs.getD i buf0).blockno = blockno :=
        ⟨hd, hb⟩
      simp only [findInBucket]
      rw [if_pos hx]
    · have hx : ¬ ((st.bufs.getD x buf0).dev = dev ∧ (st.bufs.getD x buf0).blockno = blockno) := by
        intro hxx
        have hne := (List.pairwise_cons.mp hp).1 i hmem
        exact hne ⟨hxx.1.trans hd.symm, hxx.2.trans hb.symm⟩
      simp only [findInBucket]
      rw [if_neg hx]
      exact ih hmem (List.pairwise_cons.mp hp).2

/-! ## Characterisation of the recycling scan -/

theorem firstFree_some (bufs : List Buf) (j : Nat) (h : firstFree bufs = some j) :
    j < bufs.length ∧ (bufs.getD j buf0).refcnt = 0 ∧
      ∀ k, k < j → (bufs.getD k buf0).refcnt ≠ 0 := by
  induction bufs generalizing j with
  | nil => simp [firstFree] at h
  | cons b rest ih =>
    by_cases hb : b.refcnt = 0
    · simp [firstFree, hb] at h
      subst h
      exact ⟨by simp, by simpa using hb, fun k hk => absurd hk (by omega)⟩
    · simp only [firstFree, if_neg hb, Option.map_eq_some'] at h
      obtain ⟨j0, hj0, rfl⟩ := h
      obtain ⟨h1, h2, h3⟩ := ih j0 hj0
      refine ⟨by simpa using Nat.succ_lt_succ h1, by simpa using h2, ?_⟩
      intro k hk
      cases k with
      | zero => simpa using hb
      | succ m => simpa using h3 m (by omega)

theorem firstFree_none (bufs : List Buf) (h : firstFree bufs = none) :
    ∀ b ∈ bufs, b.refcnt ≠ 0 := by
  induction bufs with
  | nil => simp
  | cons b rest ih =>
    by_cases hb : b.refcnt = 0
    · simp [firstFree, hb] at h
    · simp only [firstFree, if_neg hb, Option.map_eq_none'] at h
      intro c hc
      rcases List.mem_cons.mp hc with rfl | hc
      · exact hb
      · exact ih h c hc

theorem firstFree_none_iff (bufs : List Buf) :
    firstFree bufs = none ↔ ∀ b ∈ bufs, b.refcnt ≠ 0 := by
  constructor
  · exact firstFree_none bufs
  · intro h
    induction bufs with
    | nil => simp [firstFree]
    | cons b rest ih =>
      have hb : b.refcnt ≠ 0 := h b (List.mem_cons_self _ _)
      simp only [firstFree, if_neg hb, Option.map_eq_none']
      exact ih fun c hc => h c (List.mem_cons_of_mem _ hc)

/-! ## Unfolding lemmas for `bget` -/

theorem bget_hit_eq (st : BCache) (dev blockno i : Nat)
    (h : findInBucket st.bufs dev blockno (bucketOf st (blockno % NBUCKET)) = some i) :
    bget st dev blockno = Res.ok (i, hitState st i) := by
  simp only [bget, h, hitState]

theorem bget_miss_eq (st : BCache) (dev blockno j : Nat)
    (h : findInBucket st.bufs dev blockno (bucketOf st (blockno % NBUCKET)) = none)
    (hf : firstFree st.bufs = some j) :
    bget st dev blockno = Res.ok (j, missState st dev blockno j) := by
  simp only [bget, h, hf, missState]

theorem bget_fault_iff (st : BCache) (dev blockno : Nat) :
    bget st dev blockno = Res.fault Fault.bgetNoBuffers ↔
      findInBucket st.bufs dev blockno (bucketOf st (blockno % NBUCKET)) = none ∧
        firstFree st.bufs = none := by
  constructor
  · intro h
    simp only [bget] at h
    rcases hfind : findInBucket st.bufs dev blockno (bucketOf st (blockno % NBUCKET)) with _ | i
    · rcases hfree : firstFree st.bufs with _ | j
      · exact ⟨rfl, rfl⟩
      · rw [hfind, hfree] at h
        simp at h
    · rw [hfind] at h
      simp at h
  · intro ⟨h1, h2⟩
    simp only [bget, h1, h2]

/-! ## Small facts about states and 32-bit arithmetic -/

theorem mod_nbucket_lt (n : Nat) : n % NBUCKET < NBUCKET := Nat.mod_lt _ (by decide)

theorem getBuf_mem (st : BCache) (i : Nat) (h : i < st.bufs.length) : getBuf st i ∈ st.bufs := by
  unfold getBuf
  rw [List.getD_eq_getElem _ _ h]
  exact List.getElem_mem h

theorem getBuf_oor (st : BCache) (i : Nat) (h : st.bufs.length ≤ i) : getBuf st i = buf0 := by
  unfold getBuf
  exact List.getD_eq_default _ _ h

theorem modifyBuf_oor (st : BCache) (i : Nat) (f : Buf → Buf) (h : st.bufs.length ≤ i) :
    modifyBuf st i f = st := by
  unfold modifyBuf
  rw [List.set_eq_of_length_le h]

theorem dec_mod_u32 (r : Nat) (h0 : 0 < r) (h1 : r < U32) : (r + U32 - 1) % U32 = r - 1 := by
  have h2 : r + U32 - 1 = (r - 1) + U32 := by
    simp only [U32] at h1 ⊢
    omega
  rw [h2, Nat.add_mod_right]
  exact Nat.mod_eq_of_lt (by omega)

theorem dec_mod_u32_ne_zero (r : Nat) (h1 : r ≠ 1) (h2 : r < U32) :
    (r + U32 - 1) % U32 ≠ 0 := by
  rcases Nat.eq_zero_or_pos r with rfl | hp
  · decide
  · rw [dec_mod_u32 r hp h2]
    omega

theorem inc_mod_u32 (r : Nat) (h : r + 1 < U32) : (r + 1) % U32 = r + 1 :=
  Nat.mod_eq_of_lt h

/-- Every successful `bget` is a hit or a miss-recycle. -/
theorem bget_ok_cases (st : BCache) (dev blockno i : Nat) (st1 : BCache)
    (h : bget st dev blockno = Res.ok (i, st1)) :
    (findInBucket st.bufs dev blockno (bucketOf st (blockno % NBUCKET)) = some i ∧
        st1 = hitState st i) ∨
      (findInBucket st.bufs dev blockno (bucketOf st (blockno % NBUCKET)) = none ∧
        firstFree st.bufs = some i ∧ st1 = missState st dev blockno i) := by
  rcases hfind : findInBucket st.bufs dev blockno (bucketOf st (blockno % NBUCKET)) with _ | i0
  · rcases hfree : firstFree st.bufs with _ | j
    · rw [bget_fault_iff st dev blockno |>.mpr ⟨hfind, hfree⟩] at h
      exact absurd h (by simp)
    · rw [bget_miss_eq st dev blockno j hfind hfree] at h
      injection h with h2
      injection h2 with ha hb
      subst ha
      subst hb
      exact Or.inr ⟨rfl, rfl, rfl⟩
  · rw [bget_hit_eq st dev blockno i0 hfind] at h
    injection h with h2
    injection h2 with ha hb
    subst ha
    subst hb
    exact Or.inl ⟨rfl, rfl⟩

/-! ## Invariant preservation -/

theorem pairwise_imp_of_mem {α : Type} {R S : α → α → Prop} {l : List α}
    (h : ∀ a b, a ∈ l → b ∈ l → R a b → S a b) (hp : l.Pairwise R) : l.Pairwise S := by
  induction l with
  | nil => exact List.Pairwise.nil
  | cons x xs ih =>
    obtain ⟨h1, h2⟩ := List.pairwise_cons.mp hp
    refine List.pairwise_cons.mpr ⟨?_, ?_⟩
    · intro b hb
      exact h x b (List.mem_cons_self _ _) (List.mem_cons_of_mem _ hb) (h1 b hb)
    · exact ih (fun a b ha hb => h a b (List.mem_cons_of_mem _ ha) (List.mem_cons_of_mem _ hb)) h2

theorem pairwise_not_sameIdent_transfer (st st1 : BCache) (l : List Nat)
    (h : ∀ m, (getBuf st1 m).dev = (getBuf st m).dev ∧
              (getBuf st1 m).blockno = (getBuf st m).blockno)
    (hp : l.Pairwise (fun a b => ¬ SameIdent st a b)) :
    l.Pairwise (fun a b => ¬ SameIdent st1 a b) := by
  refine hp.imp ?_
  intro a b hab hs
  refine hab ⟨?_, ?_⟩
  · rw [← (h a).1, ← (h b).1]
    exact hs.1
  · rw [← (h a).2, ← (h b).2]
    exact hs.2

theorem ident_modifyBuf (st : BCache) (i : Nat) (f : Buf → Buf)
    (hdev : (f (getBuf st i)).dev = (getBuf st i).dev)
    (hblk : (f (getBuf st i)).blockno = (getBuf st i).blockno) (m : Nat) :
    (getBuf (modifyBuf st i f) m).dev = (getBuf st m).dev ∧
      (getBuf (modifyBuf st i f) m).blockno = (getBuf st m).blockno := by
  by_cases hm : i = m
  · subst hm
    by_cases hi : i < st.bufs.length
    · rw [getBuf_modifyBuf_self _ _ _ hi]
      exact ⟨hdev, hblk⟩
    · rw [modifyBuf_oor _ _ _ (Nat.le_of_not_lt hi)]
      exact ⟨rfl, rfl⟩
  · rw [getBuf_modifyBuf_ne _ _ _ _ hm]
    exact ⟨rfl, rfl⟩

/-- Master preservation lemma: any single-buffer update that keeps the block
identity, keeps a nonzero reference count nonzero, and keeps the count in
unsigned range preserves `CacheInv` (the bucket lists are untouched). -/
theorem cacheInv_modifyBuf (st : BCache) (i : Nat) (f : Buf → Buf)
    (hdev : ∀ b, (f b).dev = b.dev)
    (hblk : ∀ b, (f b).blockno = b.blockno)
    (hnz : (getBuf st i).refcnt ≠ 0 → (∃ k ∈ List.range NBUCKET, i ∈ bucketOf st k) →
      (f (getBuf st i)).refcnt ≠ 0)
    (hbound : (f (getBuf st i)).refcnt < U32)
    (hinv : CacheInv st) : CacheInv (modifyBuf st i f) := by
  by_cases hi : i < st.bufs.length
  · obtain ⟨hlen, hmem, hnd, hlt, hpw⟩ := hinv
    refine ⟨hlen, ?_, ?_, ?_, ?_⟩
    · intro k hk m hm
      have hm1 : m ∈ bucketOf st k := hm
      obtain ⟨h1, h2, h3⟩ := hmem k hk m hm1
      refine ⟨by rw [modifyBuf_length]; exact h1, ?_, ?_⟩
      · by_cases hmi : i = m
        · subst hmi
          rw [getBuf_modifyBuf_self _ _ _ hi, hblk]
          exact h2
        · rw [getBuf_modifyBuf_ne _ _ _ _ hmi]
          exact h2
      · by_cases hmi : i = m
        · subst hmi
          rw [getBuf_modifyBuf_self _ _ _ hi]
          exact hnz h3 ⟨k, hk, hm1⟩
        · rw [getBuf_modifyBuf_ne _ _ _ _ hmi]
          exact h3
    · intro k hk
      exact hnd k hk
    · intro b hb
      have hb1 : b ∈ st.bufs.set i (f (st.bufs.getD i buf0)) := hb
      rcases List.mem_or_eq_of_mem_set hb1 with hmem1 | rfl
      · exact hlt b hmem1
      · exact hbound
    · intro k hk
      exact pairwise_not_sameIdent_transfer st _ _
        (ident_modifyBuf st i f (hdev _) (hblk _)) (hpw k hk)
  · rw [modifyBuf_oor st i f (Nat.le_of_not_lt hi)]
    exact hinv

theorem cacheInv_hitState (st : BCache) (i : Nat) (hinv : CacheInv st) (hrb : RefBound st) :
    CacheInv (hitState st i) := by
  refine cacheInv_modifyBuf st i hitUpd (fun b => rfl) (fun b => rfl) ?_ ?_ hinv
  · intro hz hatt
    obtain ⟨k, hk, hmem⟩ := hatt
    have hi : i < st.bufs.length := (hinv.2.1 k hk i hmem).1
    have hb2 := hrb (getBuf st i) (getBuf_mem st i hi)
    show ((getBuf st i).refcnt + 1) % U32 ≠ 0
    rw [inc_mod_u32 _ hb2]
    omega
  · show ((getBuf st i).refcnt + 1) % U32 < U32
    exact Nat.mod_lt _ (by decide)

theorem cacheInv_bpin (st : BCache) (i : Nat) (hinv : CacheInv st) (hrb : RefBound st) :
    CacheInv (bpin st i) := by
  refine cacheInv_modifyBuf st i pinUpd (fun b => rfl) (fun b => rfl) ?_ ?_ hinv
  · intro hz hatt
    obtain ⟨k, hk, hmem⟩ := hatt
    have hi : i < st.bufs.length := (hinv.2.1 k hk i hmem).1
    have hb2 := hrb (getBuf st i) (getBuf_mem st i hi)
    show ((getBuf st i).refcnt + 1) % U32 ≠ 0
    rw [inc_mod_u32 _ hb2]
    omega
  · show ((getBuf st i).refcnt + 1) % U32 < U32
    exact Nat.mod_lt _ (by decide)

/-- `bunpin` preserves the invariant as long as it is not applied to a buffer
that is attached with `refcnt == 1` (the one situation in which the decrement
reaches zero while the buffer is still on a bucket list). -/
theorem cacheInv_bunpin (st : BCache) (i : Nat) (hinv : CacheInv st)
    (hsafe : ¬ ((getBuf st i).refcnt = 1 ∧ ∃ k ∈ List.range NBUCKET, i ∈ bucketOf st k)) :
    CacheInv (bunpin st i) := by
  refine cacheInv_modifyBuf st i unpinUpd unpinUpd_dev unpinUpd_blockno ?_ ?_ hinv
  · intro hz hatt
    rw [unpinUpd_refcnt]
    by_cases h1 : (getBuf st i).refcnt = 1
    · exact absurd ⟨h1, hatt⟩ hsafe
    · obtain ⟨k, hk, hmem⟩ := hatt
      have hi : i < st.bufs.length := (hinv.2.1 k hk i hmem).1
      exact dec_mod_u32_ne_zero _ h1 (hinv.2.2.2.1 (getBuf st i) (getBuf_mem st i hi))
  · rw [unpinUpd_refcnt]
    exact Nat.mod_lt _ (by decide)


theorem missState_length (st : BCache) (dev blockno j : Nat) :
    (missState st dev blockno j).bufs.length = st.bufs.length := by
  unfold missState modifyBuf
  exact List.length_set _ _ _

theorem getBuf_missState_self (st : BCache) (dev blockno j : Nat) (h : j < st.bufs.length) :
    getBuf (missState st dev blockno j) j = missUpd dev blockno (getBuf st j) :=
  getBuf_modifyBuf_self st j (missUpd dev blockno) h

theorem getBuf_missState_ne (st : BCache) (dev blockno j m : Nat) (h : j ≠ m) :
    getBuf (missState st dev blockno j) m = getBuf st m :=
  getBuf_modifyBuf_ne st j m (missUpd dev blockno) h

theorem bucketOf_missState_self (st : BCache) (dev blockno j : Nat)
    (hlen : st.buckets.length = NBUCKET) :
    bucketOf (missState st dev blockno j) (blockno % NBUCKET) =
      j :: bucketOf st (blockno % NBUCKET) := by
  unfold missState bucketOf
  exact getD_set_self _ _ _ _ (by rw [hlen]; exact mod_nbucket_lt blockno)

theorem bucketOf_missState_ne (st : BCache) (dev blockno j k : Nat)
    (h : blockno % NBUCKET ≠ k) :
    bucketOf (missState st dev blockno j) k = bucketOf st k :=
  getD_set_ne _ _ _ _ _ h

/-- A buffer with `refcnt == 0` is on no bucket list of an invariant state. -/
theorem detached_of_refcnt_zero (st : BCache) (j : Nat) (hinv : CacheInv st)
    (hz : (getBuf st j).refcnt = 0) : ∀ k ∈ List.range NBUCKET, j ∉ bucketOf st k := by
  intro k hk hcontra
  exact (hinv.2.1 k hk j hcontra).2.2 hz

theorem cacheInv_missState (st : BCache) (dev blockno j : Nat) (hinv : CacheInv st)
    (hfind : findInBucket st.bufs dev blockno (bucketOf st (blockno % NBUCKET)) = none)
    (hfree : firstFree st.bufs = some j) :
    CacheInv (missState st dev blockno j) := by
  obtain ⟨hjlt, hjz, hmin⟩ := firstFree_some _ _ hfree
  have hjz1 : (getBuf st j).refcnt = 0 := hjz
  have hdet : ∀ k ∈ List.range NBUCKET, j ∉ bucketOf st k :=
    detached_of_refcnt_zero st j hinv hjz1
  obtain ⟨hlen, hmem, hnd, hlt, hpw⟩ := hinv
  have hk0 : blockno % NBUCKET ∈ List.range NBUCKET := by
    rw [List.mem_range]
    exact mod_nbucket_lt blockno
  have hblen : (missState st dev blockno j).buckets.length = NBUCKET := by
    unfold missState
    rw [List.length_set]
    exact hlen
  refine ⟨hblen, ?_, ?_, ?_, ?_⟩
  · intro k hk m hm
    by_cases hkk : blockno % NBUCKET = k
    · subst hkk
      rw [bucketOf_missState_self st dev blockno j hlen] at hm
      rcases List.mem_cons.mp hm with rfl | hm1
      · refine ⟨by rw [missState_length]; exact hjlt, ?_, ?_⟩
        · rw [getBuf_missState_self st dev blockno m hjlt]
          rfl
        · rw [getBuf_missState_self st dev blockno m hjlt]
          exact one_ne_zero
      · have hmj : j ≠ m := fun hjm => hdet _ hk0 (hjm ▸ hm1)
        obtain ⟨h1, h2, h3⟩ := hmem _ hk0 m hm1
        rw [getBuf_missState_ne st dev blockno j m hmj]
        exact ⟨by rw [missState_length]; exact h1, h2, h3⟩
    · rw [bucketOf_missState_ne st dev blockno j k hkk] at hm
      have hmj : j ≠ m := fun hjm => hdet k hk (hjm ▸ hm)
      obtain ⟨h1, h2, h3⟩ := hmem k hk m hm
      rw [getBuf_missState_ne st dev blockno j m hmj]
      exact ⟨by rw [missState_length]; exact h1, h2, h3⟩
  · intro k hk
    by_cases hkk : blockno % NBUCKET = k
    · subst hkk
      rw [bucketOf_missState_self st dev blockno j hlen]
      exact List.nodup_cons.mpr ⟨hdet _ hk0, hnd _ hk0⟩
    · rw [bucketOf_missState_ne st dev blockno j k hkk]
      exact hnd k hk
  · intro b hb
    have hb1 : b ∈ st.bufs.set j (missUpd dev blockno (getBuf st j)) := hb
    rcases List.mem_or_eq_of_mem_set hb1 with hmem1 | rfl
    · exact hlt b hmem1
    · exact (by decide : (1 : Nat) < U32)
  · intro k hk
    by_cases hkk : blockno % NBUCKET = k
    · subst hkk
      rw [bucketOf_missState_self st dev blockno j hlen]
      refine List.pairwise_cons.mpr ⟨?_, ?_⟩
      · intro m hm1 hs
        have hmj : j ≠ m := fun hjm => hdet _ hk0 (hjm ▸ hm1)
        obtain ⟨hs1, hs2⟩ := hs
        rw [getBuf_missState_self st dev blockno j hjlt,
            getBuf_missState_ne st dev blockno j m hmj] at hs1 hs2
        exact findInBucket_eq_none _ _ _ _ hfind m hm1 ⟨hs1.symm, hs2.symm⟩
      · refine pairwise_imp_of_mem ?_ (hpw _ hk0)
        intro a b ha hb hab hs
        have haj : j ≠ a := fun hja => hdet _ hk0 (hja ▸ ha)
        have hbj : j ≠ b := fun hjb => hdet _ hk0 (hjb ▸ hb)
        obtain ⟨hs1, hs2⟩ := hs
        rw [getBuf_missState_ne st dev blockno j a haj,
            getBuf_missState_ne st dev blockno j b hbj] at hs1 hs2
        exact hab ⟨hs1, hs2⟩
    · rw [bucketOf_missState_ne st dev blockno j k hkk]
      refine pairwise_imp_of_mem ?_ (hpw k hk)
      intro a b ha hb hab hs
      have haj : j ≠ a := fun hja => hdet k hk (hja ▸ ha)
      have hbj : j ≠ b := fun hjb => hdet k hk (hjb ▸ hb)
      obtain ⟨hs1, hs2⟩ := hs
      rw [getBuf_missState_ne st dev blockno j a haj,
          getBuf_missState_ne st dev blockno j b hbj] at hs1 hs2
      exact hab ⟨hs1, hs2⟩

/-! ## Unfolding lemmas for `bwrite`, `brelse`, `bread` -/

theorem bwrite_fault_eq (st : BCache) (i : Nat) (h : (getBuf st i).lockHeld = false) :
    bwrite st i = Res.fault Fault.bwriteNotLocked := by
  simp [bwrite, h]

theorem bwrite_ok_eq (st : BCache) (i : Nat) (h : (getBuf st i).lockHeld = true) :
    bwrite st i = Res.ok (st,
      [{ dev := (getBuf st i).dev, blockno := (getBuf st i).blockno, isWrite := true }]) := by
  simp [bwrite, h]

theorem brelse_fault_eq (st : BCache) (i : Nat) (h : (getBuf st i).lockHeld = false) :
    brelse st i = Res.fault Fault.brelseNotLocked := by
  simp [brelse, h]

theorem brelse_dec_eq (st : BCache) (i : Nat) (hl : (getBuf st i).lockHeld = true)
    (hr : (getBuf st i).refcnt ≠ 1) : brelse st i = Res.ok (relseDecState st i) := by
  simp [brelse, hl, hr, relseDecState]

theorem brelse_detach_eq (st : BCache) (i : Nat) (hl : (getBuf st i).lockHeld = true)
    (hr : (getBuf st i).refcnt = 1) : brelse st i = Res.ok (relseDetachState st i) := by
  simp [brelse, hl, hr, relseDetachState]

theorem brelse_ok_lockHeld (st : BCache) (i : Nat) (st1 : BCache)
    (h : brelse st i = Res.ok st1) : (getBuf st i).lockHeld = true := by
  cases hb : (getBuf st i).lockHeld with
  | false =>
    rw [brelse_fault_eq st i hb] at h
    exact absurd h (by simp)
  | true => rfl

theorem brelse_ok_lt (st : BCache) (i : Nat) (st1 : BCache)
    (h : brelse st i = Res.ok st1) : i < st.bufs.length := by
  by_contra hc
  have h0 : getBuf st i = buf0 := getBuf_oor st i (Nat.le_of_not_lt hc)
  have h1 : (getBuf st i).lockHeld = true := brelse_ok_lockHeld st i st1 h
  rw [h0] at h1
  exact absurd h1 (by decide)

theorem brelse_ok_cases (st : BCache) (i : Nat) (st1 : BCache)
    (h : brelse st i = Res.ok st1) :
    (getBuf st i).lockHeld = true ∧
      (((getBuf st i).refcnt ≠ 1 ∧ st1 = relseDecState st i) ∨
        ((getBuf st i).refcnt = 1 ∧ st1 = relseDetachState st i)) := by
  have hl := brelse_ok_lockHeld st i st1 h
  refine ⟨hl, ?_⟩
  by_cases hr : (getBuf st i).refcnt = 1
  · rw [brelse_detach_eq st i hl hr] at h
    injection h with h2
    exact Or.inr ⟨hr, h2.symm⟩
  · rw [brelse_dec_eq st i hl hr] at h
    injection h with h2
    exact Or.inl ⟨hr, h2.symm⟩

theorem bwrite_ok_state (st : BCache) (i : Nat) (st1 : BCache) (ops : List DiskOp)
    (h : bwrite st i = Res.ok (st1, ops)) : st1 = st := by
  cases hb : (getBuf st i).lockHeld with
  | false =>
    rw [bwrite_fault_eq st i hb] at h
    exact absurd h (by simp)
  | true =>
    rw [bwrite_ok_eq st i hb] at h
    injection h with h2
    injection h2 with ha hb2
    exact ha.symm

theorem bread_fault_eq (disk : Nat → Nat → Nat) (st : BCache) (dev blockno : Nat) (f : Fault)
    (h : bget st dev blockno = Res.fault f) : bread disk st dev blockno = Res.fault f := by
  simp [bread, h]

theorem bread_valid_eq (disk : Nat → Nat → Nat) (st : BCache) (dev blockno i : Nat)
    (stg : BCache) (hg : bget st dev blockno = Res.ok (i, stg))
    (hv : (getBuf stg i).valid = true) :
    bread disk st dev blockno = Res.ok (i, stg, []) := by
  simp [bread, hg, hv]

theorem bread_invalid_eq (disk : Nat → Nat → Nat) (st : BCache) (dev blockno i : Nat)
    (stg : BCache) (hg : bget st dev blockno = Res.ok (i, stg))
    (hv : (getBuf stg i).valid = false) :
    bread disk st dev blockno = Res.ok (i, modifyBuf stg i (fillUpd disk),
      [{ dev := (getBuf stg i).dev, blockno := (getBuf stg i).blockno, isWrite := false }]) := by
  simp [bread, hg, hv]

theorem bread_ok_cases (disk : Nat → Nat → Nat) (st : BCache) (dev blockno i : Nat)
    (st1 : BCache) (ops : List DiskOp)
    (h : bread disk st dev blockno = Res.ok (i, st1, ops)) :
    ∃ stg, bget st dev blockno = Res.ok (i, stg) ∧
      (((getBuf stg i).valid = false ∧ st1 = modifyBuf stg i (fillUpd disk) ∧
          ops = [{ dev := (getBuf stg i).dev, blockno := (getBuf stg i).blockno,
                   isWrite := false }]) ∨
        ((getBuf stg i).valid = true ∧ st1 = stg ∧ ops = [])) := by
  cases hg : bget st dev blockno with
  | fault f =>
    rw [bread_fault_eq disk st dev blockno f hg] at h
    exact absurd h (by simp)
  | ok p =>
    obtain ⟨i0, stg⟩ := p
    cases hv : (getBuf stg i0).valid with
    | false =>
      rw [bread_invalid_eq disk st dev blockno i0 stg hg hv] at h
      injection h with h2
      injection h2 with ha hb
      injection hb with hb1 hb2
      subst ha
      exact ⟨stg, rfl, Or.inl ⟨hv, hb1.symm, hb2.symm⟩⟩
    | true =>
      rw [bread_valid_eq disk st dev blockno i0 stg hg hv] at h
      injection h with h2
      injection h2 with ha hb
      injection hb with hb1 hb2
      subst ha
      exact ⟨stg, rfl, Or.inr ⟨hv, hb1.symm, hb2.symm⟩⟩

/-! ## Preservation for `brelse`, `bread`, `bwrite`, `bget` -/

theorem cacheInv_relseDecState (st : BCache) (i : Nat) (hinv : CacheInv st)
    (hr : (getBuf st i).refcnt ≠ 1) : CacheInv (relseDecState st i) := by
  refine cacheInv_modifyBuf st i decUpd decUpd_dev decUpd_blockno ?_ ?_ hinv
  · intro hz hatt
    rw [decUpd_refcnt]
    obtain ⟨k, hk, hmem⟩ := hatt
    have hi : i < st.bufs.length := (hinv.2.1 k hk i hmem).1
    exact dec_mod_u32_ne_zero _ hr (hinv.2.2.2.1 _ (getBuf_mem st i hi))
  · rw [decUpd_refcnt]
    exact Nat.mod_lt _ (by decide)

theorem relseDetachState_length (st : BCache) (i : Nat) :
    (relseDetachState st i).bufs.length = st.bufs.length := by
  unfold relseDetachState modifyBuf
  exact List.length_set _ _ _

theorem getBuf_relseDetachState_self (st : BCache) (i : Nat) (h : i < st.bufs.length) :
    getBuf (relseDetachState st i) i = detachUpd (getBuf st i) :=
  getBuf_modifyBuf_self st i detachUpd h

theorem getBuf_relseDetachState_ne (st : BCache) (i m : Nat) (h : i ≠ m) :
    getBuf (relseDetachState st i) m = getBuf st m :=
  getBuf_modifyBuf_ne st i m detachUpd h

theorem bucketOf_relseDetachState_self (st : BCache) (i : Nat)
    (hlen : st.buckets.length = NBUCKET) :
    bucketOf (relseDetachState st i) ((getBuf st i).blockno % NBUCKET) =
      (bucketOf st ((getBuf st i).blockno % NBUCKET)).erase i := by
  unfold relseDetachState bucketOf
  exact getD_set_self _ _ _ _ (by rw [hlen]; exact mod_nbucket_lt _)

theorem bucketOf_relseDetachState_ne (st : BCache) (i k : Nat)
    (h : (getBuf st i).blockno % NBUCKET ≠ k) :
    bucketOf (relseDetachState st i) k = bucketOf st k :=
  getD_set_ne _ _ _ _ _ h

theorem ident_detachUpd (st : BCache) (i m : Nat) :
    (getBuf (relseDetachState st i) m).dev = (getBuf st m).dev ∧
      (getBuf (relseDetachState st i) m).blockno = (getBuf st m).blockno :=
  ident_modifyBuf st i detachUpd (detachUpd_dev _) (detachUpd_blockno _) m

theorem cacheInv_relseDetachState (st : BCache) (i : Nat) (hinv : CacheInv st) :
    CacheInv (relseDetachState st i) := by
  obtain ⟨hlen, hmem, hnd, hlt, hpw⟩ := hinv
  have hblen : (relseDetachState st i).buckets.length = NBUCKET := by
    unfold relseDetachState
    rw [List.length_set]
    exact hlen
  refine ⟨hblen, ?_, ?_, ?_, ?_⟩
  · intro k hk m hm
    by_cases hkk : (getBuf st i).blockno % NBUCKET = k
    · subst hkk
      rw [bucketOf_relseDetachState_self st i hlen] at hm
      have hm0 : m ∈ bucketOf st ((getBuf st i).blockno % NBUCKET) :=
        (List.erase_sublist _ _).subset hm
      have hmi : m ≠ i := ((hnd _ hk).mem_erase_iff.mp hm).1
      obtain ⟨h1, h2, h3⟩ := hmem _ hk m hm0
      rw [getBuf_relseDetachState_ne st i m (fun hx => hmi hx.symm)]
      exact ⟨by rw [relseDetachState_length]; exact h1, h2, h3⟩
    · rw [bucketOf_relseDetachState_ne st i k hkk] at hm
      have hmi : i ≠ m := by
        intro hx
        subst hx
        exact hkk ((hmem k hk i hm).2.1)
      obtain ⟨h1, h2, h3⟩ := hmem k hk m hm
      rw [getBuf_relseDetachState_ne st i m hmi]
      exact ⟨by rw [relseDetachState_length]; exact h1, h2, h3⟩
  · intro k hk
    by_cases hkk : (getBuf st i).blockno % NBUCKET = k
    · subst hkk
      rw [bucketOf_relseDetachState_self st i hlen]
      exact (hnd _ hk).erase i
    · rw [bucketOf_relseDetachState_ne st i k hkk]
      exact hnd k hk
  · intro b hb
    have hb1 : b ∈ st.bufs.set i (detachUpd (getBuf st i)) := hb
    rcases List.mem_or_eq_of_mem_set hb1 with hmem1 | rfl
    · exact hlt b hmem1
    · rw [detachUpd_refcnt]
      decide
  · intro k hk
    by_cases hkk : (getBuf st i).blockno % NBUCKET = k
    · subst hkk
      rw [bucketOf_relseDetachState_self st i hlen]
      refine pairwise_not_sameIdent_transfer st _ _ (ident_detachUpd st i) ?_
      exact List.Pairwise.sublist (List.erase_sublist _ _) (hpw _ hk)
    · rw [bucketOf_relseDetachState_ne st i k hkk]
      exact pairwise_not_sameIdent_transfer st _ _ (ident_detachUpd st i) (hpw k hk)

/-- The detach branch of `brelse` removes the buffer from every bucket list. -/
theorem relseDetachState_detached (st : BCache) (i : Nat) (hinv : CacheInv st) :
    ∀ k ∈ List.range NBUCKET, i ∉ bucketOf (relseDetachState st i) k := by
  intro k hk hc
  by_cases hkk : (getBuf st i).blockno % NBUCKET = k
  · subst hkk
    rw [bucketOf_relseDetachState_self st i hinv.1] at hc
    exact ((hinv.2.2.1 _ hk).mem_erase_iff.mp hc).1 rfl
  · rw [bucketOf_relseDetachState_ne st i k hkk] at hc
    exact hkk ((hinv.2.1 k hk i hc).2.1)

theorem cacheInv_brelse (st : BCache) (i : Nat) (st1 : BCache) (hinv : CacheInv st)
    (h : brelse st i = Res.ok st1) : CacheInv st1 := by
  obtain ⟨hl, hc⟩ := brelse_ok_cases st i st1 h
  rcases hc with ⟨hr, rfl⟩ | ⟨hr, rfl⟩
  · exact cacheInv_relseDecState st i hinv hr
  · exact cacheInv_relseDetachState st i hinv

theorem cacheInv_bget (st : BCache) (dev blockno i : Nat) (st1 : BCache)
    (hinv : CacheInv st) (hrb : RefBound st)
    (h : bget st dev blockno = Res.ok (i, st1)) : CacheInv st1 := by
  rcases bget_ok_cases st dev blockno i st1 h with ⟨hfind, rfl⟩ | ⟨hfind, hfree, rfl⟩
  · exact cacheInv_hitState st i hinv hrb
  · exact cacheInv_missState st dev blockno i hinv hfind hfree

theorem cacheInv_fill (st : BCache) (i : Nat) (disk : Nat → Nat → Nat)
    (hinv : CacheInv st) : CacheInv (modifyBuf st i (fillUpd disk)) := by
  refine cacheInv_modifyBuf st i (fillUpd disk) (fillUpd_dev disk) (fillUpd_blockno disk)
    ?_ ?_ hinv
  · intro hz hatt
    rw [fillUpd_refcnt]
    exact hz
  · rw [fillUpd_refcnt]
    by_cases hi : i < st.bufs.length
    · exact hinv.2.2.2.1 _ (getBuf_mem st i hi)
    · rw [getBuf_oor st i (Nat.le_of_not_lt hi)]
      decide

theorem cacheInv_bread (disk : Nat → Nat → Nat) (st : BCache) (dev blockno i : Nat)
    (st1 : BCache) (ops : List DiskOp) (hinv : CacheInv st) (hrb : RefBound st)
    (h : bread disk st dev blockno = Res.ok (i, st1, ops)) : CacheInv st1 := by
  obtain ⟨stg, hg, hcase⟩ := bread_ok_cases disk st dev blockno i st1 ops h
  have hinv1 : CacheInv stg := cacheInv_bget st dev blockno i stg hinv hrb hg
  rcases hcase with ⟨hv, rfl, hops⟩ | ⟨hv, rfl, hops⟩
  · exact cacheInv_fill stg i disk hinv1
  · exact hinv1

theorem cacheInv_bwrite (st : BCache) (i : Nat) (st1 : BCache) (ops : List DiskOp)
    (hinv : CacheInv st) (h : bwrite st i = Res.ok (st1, ops)) : CacheInv st1 := by
  rw [bwrite_ok_state st i st1 ops h]
  exact hinv

/-! ## Ghost reference-count accounting -/

theorem getD_replicate {α : Type} (n i : Nat) (d : α) : (List.replicate n d).getD i d = d := by
  induction n generalizing i with
  | zero => simp
  | succ m ih =>
    cases i with
    | zero => simp [List.replicate]
    | succ j =>
      rw [List.replicate, List.getD_cons_succ]
      exact ih j

theorem getBuf_binit (n i : Nat) : getBuf (binit n) i = buf0 := by
  unfold getBuf binit
  exact getD_replicate n i buf0

theorem bump_self (g : Nat → Int) (i : Nat) (d : Int) : bump g i d i = g i + d := by
  simp [bump]

theorem bump_ne (g : Nat → Int) (i m : Nat) (d : Int) (h : m ≠ i) : bump g i d m = g m := by
  simp [bump, h]

theorem inc_ghost (r : Nat) (gv : Int) (hr : (r : Int) = gv % (U32 : Int)) :
    (((r + 1) % U32 : Nat) : Int) = (gv + 1) % (U32 : Int) := by
  rw [Int.natCast_mod]
  simp only [U32] at hr ⊢
  push_cast at hr ⊢
  omega

theorem dec_ghost (r : Nat) (gv : Int) (hr : (r : Int) = gv % (U32 : Int)) :
    (((r + U32 - 1) % U32 : Nat) : Int) = (gv + (-1)) % (U32 : Int) := by
  rw [Int.natCast_mod]
  simp only [U32] at hr ⊢
  have h1 : ((r + 4294967296 - 1 : Nat) : Int) = (r : Int) + 4294967296 - 1 := by omega
  rw [h1]
  omega

theorem set_ghost_one (gv : Int) (hr : (0 : Int) = gv % (U32 : Int)) :
    ((1 : Nat) : Int) = (gv + 1) % (U32 : Int) := by
  simp only [U32] at hr ⊢
  omega

theorem detach_ghost (gv : Int) (hr : (1 : Int) = gv % (U32 : Int)) :
    ((0 : Nat) : Int) = (gv + (-1)) % (U32 : Int) := by
  simp only [U32] at hr ⊢
  omega

theorem hitState_length (st : BCache) (i : Nat) :
    (hitState st i).bufs.length = st.bufs.length := modifyBuf_length st i hitUpd

theorem getBuf_hitState_self (st : BCache) (i : Nat) (h : i < st.bufs.length) :
    getBuf (hitState st i) i = hitUpd (getBuf st i) := getBuf_modifyBuf_self st i hitUpd h

theorem getBuf_hitState_ne (st : BCache) (i m : Nat) (h : i ≠ m) :
    getBuf (hitState st i) m = getBuf st m := getBuf_modifyBuf_ne st i m hitUpd h

theorem relseDecState_length (st : BCache) (i : Nat) :
    (relseDecState st i).bufs.length = st.bufs.length := modifyBuf_length st i decUpd

theorem getBuf_relseDecState_self (st : BCache) (i : Nat) (h : i < st.bufs.length) :
    getBuf (relseDecState st i) i = decUpd (getBuf st i) := getBuf_modifyBuf_self st i decUpd h

theorem getBuf_relseDecState_ne (st : BCache) (i m : Nat) (h : i ≠ m) :
    getBuf (relseDecState st i) m = getBuf st m := getBuf_modifyBuf_ne st i m decUpd h

theorem bpin_length (st : BCache) (i : Nat) :
    (bpin st i).bufs.length = st.bufs.length := modifyBuf_length st i pinUpd

theorem getBuf_bpin_self (st : BCache) (i : Nat) (h : i < st.bufs.length) :
    getBuf (bpin st i) i = pinUpd (getBuf st i) := getBuf_modifyBuf_self st i pinUpd h

theorem getBuf_bpin_ne (st : BCache) (i m : Nat) (h : i ≠ m) :
    getBuf (bpin st i) m = getBuf st m := getBuf_modifyBuf_ne st i m pinUpd h

theorem bunpin_length (st : BCache) (i : Nat) :
    (bunpin st i).bufs.length = st.bufs.length := modifyBuf_length st i unpinUpd

theorem getBuf_bunpin_self (st : BCache) (i : Nat) (h : i < st.bufs.length) :
    getBuf (bunpin st i) i = unpinUpd (getBuf st i) := getBuf_modifyBuf_self st i unpinUpd h

theorem getBuf_bunpin_ne (st : BCache) (i m : Nat) (h : i ≠ m) :
    getBuf (bunpin st i) m = getBuf st m := getBuf_modifyBuf_ne st i m unpinUpd h

theorem bget_ghost (st : BCache) (dev blockno i0 : Nat) (st1 : BCache) (g : Nat → Int)
    (h : bget st dev blockno = Res.ok (i0, st1))
    (ih : ∀ i, i < st.bufs.length → ((getBuf st i).refcnt : Int) = g i % (U32 : Int)) :
    st1.bufs.length = st.bufs.length ∧
      ∀ i, i < st1.bufs.length → ((getBuf st1 i).refcnt : Int) = bump g i0 1 i % (U32 : Int) := by
  rcases bget_ok_cases st dev blockno i0 st1 h with ⟨hfind, rfl⟩ | ⟨hfind, hfree, rfl⟩
  · refine ⟨hitState_length st i0, ?_⟩
    intro i hi
    rw [hitState_length] at hi
    by_cases hii : i0 = i
    · subst hii
      rw [getBuf_hitState_self st i0 hi, hitUpd_refcnt, bump_self]
      exact inc_ghost _ _ (ih i0 hi)
    · rw [getBuf_hitState_ne st i0 i hii, bump_ne g i0 i 1 (fun hx => hii hx.symm)]
      exact ih i hi
  · have hjlt := (firstFree_some _ _ hfree).1
    have hjz0 : (st.bufs.getD i0 buf0).refcnt = 0 := (firstFree_some _ _ hfree).2.1
    refine ⟨missState_length st dev blockno i0, ?_⟩
    intro i hi
    rw [missState_length] at hi
    by_cases hii : i0 = i
    · subst hii
      rw [getBuf_missState_self st dev blockno i0 hjlt, missUpd_refcnt, bump_self]
      have h0 : ((getBuf st i0).refcnt : Int) = g i0 % (U32 : Int) := ih i0 hjlt
      have hjz : (getBuf st i0).refcnt = 0 := hjz0
      rw [hjz] at h0
      exact set_ghost_one _ (by exact_mod_cast h0)
    · rw [getBuf_missState_ne st dev blockno i0 i hii, bump_ne g i0 i 1 (fun hx => hii hx.symm)]
      exact ih i hi

/-- Along any instrumented run, every buffer's reference count equals the
number of outstanding holders plus pins of that slot, modulo `2 ^ 32`. -/
theorem reachC_refcnt (st : BCache) (g : Nat → Int) (h : ReachC st g) :
    ∀ i, i < st.bufs.length → ((getBuf st i).refcnt : Int) = g i % (U32 : Int) := by
  induction h with
  | init n =>
    intro i hi
    rw [getBuf_binit]
    simp [buf0]
  | get st g dev blockno i0 st1 hrc hbget ih =>
    exact (bget_ghost st dev blockno i0 st1 g hbget ih).2
  | read disk st g dev blockno i0 st1 ops hrc hbread ih =>
    obtain ⟨stg, hg, hcase⟩ := bread_ok_cases disk st dev blockno i0 st1 ops hbread
    obtain ⟨hlen, hg2⟩ := bget_ghost st dev blockno i0 stg g hg ih
    rcases hcase with ⟨hv, rfl, hops⟩ | ⟨hv, rfl, hops⟩
    · intro i hi
      rw [modifyBuf_length] at hi
      by_cases hii : i0 = i
      · subst hii
        rw [getBuf_modifyBuf_self stg i0 (fillUpd disk) hi, fillUpd_refcnt]
        exact hg2 i0 hi
      · rw [getBuf_modifyBuf_ne stg i0 i (fillUpd disk) hii]
        exact hg2 i hi
    · exact hg2
  | write st g i0 st1 ops hrc hw ih =>
    rw [bwrite_ok_state st i0 st1 ops hw]
    exact ih
  | relse st g i0 st1 hrc hrel ih =>
    obtain ⟨hl, hc⟩ := brelse_ok_cases st i0 st1 hrel
    rcases hc with ⟨hne, rfl⟩ | ⟨heq, rfl⟩
    · intro i hi
      rw [relseDecState_length] at hi
      by_cases hii : i0 = i
      · subst hii
        rw [getBuf_relseDecState_self st i0 hi, decUpd_refcnt, bump_self]
        exact dec_ghost _ _ (ih i0 hi)
      · rw [getBuf_relseDecState_ne st i0 i hii, bump_ne g i0 i (-1) (fun hx => hii hx.symm)]
        exact ih i hi
    · intro i hi
      rw [relseDetachState_length] at hi
      by_cases hii : i0 = i
      · subst hii
        rw [getBuf_relseDetachState_self st i0 hi, detachUpd_refcnt, bump_self]
        have h1 := ih i0 hi
        rw [heq] at h1
        exact detach_ghost _ (by exact_mod_cast h1)
      · rw [getBuf_relseDetachState_ne st i0 i hii, bump_ne g i0 i (-1) (fun hx => hii hx.symm)]
        exact ih i hi
  | pin st g i0 hrc hlt0 ih =>
    intro i hi
    rw [bpin_length] at hi
    by_cases hii : i0 = i
    · subst hii
      rw [getBuf_bpin_self st i0 hi, pinUpd_refcnt, bump_self]
      exact inc_ghost _ _ (ih i0 hi)
    · rw [getBuf_bpin_ne st i0 i hii, bump_ne g i0 i 1 (fun hx => hii hx.symm)]
      exact ih i hi
  | unpin st g i0 hrc hlt0 ih =>
    intro i hi
    rw [bunpin_length] at hi
    by_cases hii : i0 = i
    · subst hii
      rw [getBuf_bunpin_self st i0 hi, unpinUpd_refcnt, bump_self]
      exact dec_ghost _ _ (ih i0 hi)
    · rw [getBuf_bunpin_ne st i0 i hii, bump_ne g i0 i (-1) (fun hx => hii hx.symm)]
      exact ih i hi

/-! ## Attachment facts after a successful `bget` / `bread` -/

theorem bread_fault_iff (disk : Nat → Nat → Nat) (st : BCache) (dev blockno : Nat) (f : Fault) :
    bread disk st dev blockno = Res.fault f ↔ bget st dev blockno = Res.fault f := by
  constructor
  · intro h
    cases hg : bget st dev blockno with
    | fault f0 =>
      rw [bread_fault_eq disk st dev blockno f0 hg] at h
      injection h with h2
      rw [h2]
    | ok p =>
      obtain ⟨i0, stg⟩ := p
      cases hv : (getBuf stg i0).valid with
      | false =>
        rw [bread_invalid_eq disk st dev blockno i0 stg hg hv] at h
        exact absurd h (by simp)
      | true =>
        rw [bread_valid_eq disk st dev blockno i0 stg hg hv] at h
        exact absurd h (by simp)
  · intro h
    exact bread_fault_eq disk st dev blockno f h

theorem bget_ok_attached (st : BCache) (dev blockno i : Nat) (stg : BCache)
    (hinv : CacheInv st) (h : bget st dev blockno = Res.ok (i, stg)) :
    i < stg.bufs.length ∧ i ∈ bucketOf stg (blockno % NBUCKET) ∧
      (getBuf stg i).dev = dev ∧ (getBuf stg i).blockno = blockno := by
  have hk0 : blockno % NBUCKET ∈ List.range NBUCKET := by
    rw [List.mem_range]
    exact mod_nbucket_lt blockno
  rcases bget_ok_cases st dev blockno i stg h with ⟨hfind, rfl⟩ | ⟨hfind, hfree, rfl⟩
  · obtain ⟨hm, hd, hb⟩ := findInBucket_eq_some _ _ _ _ _ hfind
    have hi : i < st.bufs.length := (hinv.2.1 _ hk0 i hm).1
    refine ⟨by rw [hitState_length]; exact hi, hm, ?_, ?_⟩
    · rw [getBuf_hitState_self st i hi, hitUpd_dev]
      exact hd
    · rw [getBuf_hitState_self st i hi, hitUpd_blockno]
      exact hb
  · obtain ⟨hjlt, hjz, hmin⟩ := firstFree_some _ _ hfree
    refine ⟨by rw [missState_length]; exact hjlt, ?_, ?_, ?_⟩
    · rw [bucketOf_missState_self st dev blockno i hinv.1]
      exact List.mem_cons_self _ _
    · rw [getBuf_missState_self st dev blockno i hjlt, missUpd_dev]
    · rw [getBuf_missState_self st dev blockno i hjlt, missUpd_blockno]

theorem bread_ok_attached (disk : Nat → Nat → Nat) (st : BCache) (dev blockno i : Nat)
    (st1 : BCache) (ops : List DiskOp) (hinv : CacheInv st)
    (h : bread disk st dev blockno = Res.ok (i, st1, ops)) :
    i < st1.bufs.length ∧ i ∈ bucketOf st1 (blockno % NBUCKET) ∧
      (getBuf st1 i).dev = dev ∧ (getBuf st1 i).blockno = blockno ∧
      (getBuf st1 i).valid = true := by
  obtain ⟨stg, hg, hcase⟩ := bread_ok_cases disk st dev blockno i st1 ops h
  obtain ⟨hi, hm, hd, hb⟩ := bget_ok_attached st dev blockno i stg hinv hg
  rcases hcase with ⟨hv, rfl, hops⟩ | ⟨hv, rfl, hops⟩
  · refine ⟨by rw [modifyBuf_length]; exact hi, hm, ?_, ?_, ?_⟩
    · rw [getBuf_modifyBuf_self stg i (fillUpd disk) hi, fillUpd_dev]
      exact hd
    · rw [getBuf_modifyBuf_self stg i (fillUpd disk) hi, fillUpd_blockno]
      exact hb
    · rw [getBuf_modifyBuf_self stg i (fillUpd disk) hi, fillUpd_valid]
  · exact ⟨hi, hm, hd, hb, hv⟩

/-! # Claim theorems -/

/-- C7: for every buffer, calling `bwrite` or `brelse` from a context that
does not hold the buffer's sleep-lock panics (`LockContractViolation`) before
any state mutation: the faulting result carries no successor state and no disk
transfer, so no `refcnt`, `valid` or list-linkage change occurs (in this
embedding a `Res.fault` is produced before any field of the state is
rebuilt, mirroring the C code, which panics before touching anything). -/
theorem c7_lock_contract_failfast (st : BCache) (i : Nat)
    (h : (getBuf st i).lockHeld = false) :
    bwrite st i = Res.fault Fault.bwriteNotLocked ∧
      brelse st i = Res.fault Fault.brelseNotLocked :=
  ⟨bwrite_fault_eq st i h, brelse_fault_eq st i h⟩

/-- C7 witness: on the freshly initialised cache no lock is held, and both
operations fault. -/
theorem c7_lock_contract_failfast_witness :
    (getBuf (binit 1) 0).lockHeld = false ∧
      bwrite (binit 1) 0 = Res.fault Fault.bwriteNotLocked ∧
      brelse (binit 1) 0 = Res.fault Fault.brelseNotLocked :=
  ⟨by decide, c7_lock_contract_failfast (binit 1) 0 (by decide)⟩

/-- C8: with the lock-ownership precondition satisfied, `bwrite`
unconditionally performs exactly one disk transfer in write mode — there is no
`valid` test on this path — and returns the state unchanged, so `valid`,
`refcnt`, the identity and the list attachment are all untouched. -/
theorem c8_write_unconditional (st : BCache) (i : Nat)
    (h : (getBuf st i).lockHeld = true) :
    bwrite st i = Res.ok (st,
      [{ dev := (getBuf st i).dev, blockno := (getBuf st i).blockno, isWrite := true }]) :=
  bwrite_ok_eq st i h

/-- C8 witness: a write on a buffer whose `valid` flag is already set still
performs the transfer. -/
theorem c8_write_unconditional_witness :
    (getBuf stRead1 0).valid = true ∧
      bwrite stRead1 0 = Res.ok (stRead1, [{ dev := 0, blockno := 0, isWrite := true }]) :=
  ⟨by decide, c8_write_unconditional stRead1 0 (by decide)⟩

/-- C4: `bget` (and hence `bread`) panics with `bget: no buffers`
(CacheExhausted) exactly when the lookup misses and no pool slot has
`refcnt == 0`; the fault is produced by the single scan with no retry, and the
faulting result carries no successor state, so nothing has been mutated.  With
pool size `N`, holding `N` distinct identities and requesting an `(N+1)`-th
triggers it (see the witness with `N = 2`). -/
theorem c4_exhaustion_iff (st : BCache) (dev blockno : Nat) :
    (bget st dev blockno = Res.fault Fault.bgetNoBuffers ↔
      findInBucket st.bufs dev blockno (bucketOf st (blockno % NBUCKET)) = none ∧
        ∀ b ∈ st.bufs, b.refcnt ≠ 0) ∧
    ∀ disk, bread disk st dev blockno = Res.fault Fault.bgetNoBuffers ↔
      findInBucket st.bufs dev blockno (bucketOf st (blockno % NBUCKET)) = none ∧
        ∀ b ∈ st.bufs, b.refcnt ≠ 0 := by
  have h1 : bget st dev blockno = Res.fault Fault.bgetNoBuffers ↔
      findInBucket st.bufs dev blockno (bucketOf st (blockno % NBUCKET)) = none ∧
        ∀ b ∈ st.bufs, b.refcnt ≠ 0 :=
    (bget_fault_iff st dev blockno).trans
      (and_congr_right fun _ => firstFree_none_iff st.bufs)
  exact ⟨h1, fun disk => (bread_fault_iff disk st dev blockno _).trans h1⟩

/-- C4 witness: pool size two, identities (0,0) and (0,1) both held; a request
for the distinct identity (0,2) misses and faults. -/
theorem c4_exhaustion_iff_witness :
    bget stFull 0 2 = Res.fault Fault.bgetNoBuffers ∧
      bread dNull stFull 0 2 = Res.fault Fault.bgetNoBuffers :=
  ⟨(c4_exhaustion_iff stFull 0 2).1.mpr ⟨by decide, by decide⟩,
   ((c4_exhaustion_iff stFull 0 2).2 dNull).mpr ⟨by decide, by decide⟩⟩

/-- C3: on a miss, `bget` recycles the first pool slot in index order whose
`refcnt` is zero — every earlier slot has `refcnt ≠ 0`, so a held or pinned
buffer is never selected — sets `refcnt = 1`, overwrites the identity, clears
`valid`, and pushes the slot onto the head of bucket `blockno % NBUCKET`. -/
theorem c3_miss_recycles_first_free (st : BCache) (dev blockno j : Nat)
    (hlen : st.buckets.length = NBUCKET)
    (hmiss : findInBucket st.bufs dev blockno (bucketOf st (blockno % NBUCKET)) = none)
    (hfree : firstFree st.bufs = some j) :
    (getBuf st j).refcnt = 0 ∧
      (∀ k, k < j → (getBuf st k).refcnt ≠ 0) ∧
      bget st dev blockno = Res.ok (j, missState st dev blockno j) ∧
      (getBuf (missState st dev blockno j) j).refcnt = 1 ∧
      (getBuf (missState st dev blockno j) j).dev = dev ∧
      (getBuf (missState st dev blockno j) j).blockno = blockno ∧
      (getBuf (missState st dev blockno j) j).valid = false ∧
      bucketOf (missState st dev blockno j) (blockno % NBUCKET) =
        j :: bucketOf st (blockno % NBUCKET) := by
  obtain ⟨hjlt, hjz, hmin⟩ := firstFree_some _ _ hfree
  refine ⟨hjz, hmin, bget_miss_eq st dev blockno j hmiss hfree, ?_, ?_, ?_, ?_,
    bucketOf_missState_self st dev blockno j hlen⟩
  · rw [getBuf_missState_self st dev blockno j hjlt, missUpd_refcnt]
  · rw [getBuf_missState_self st dev blockno j hjlt, missUpd_dev]
  · rw [getBuf_missState_self st dev blockno j hjlt, missUpd_blockno]
  · rw [getBuf_missState_self st dev blockno j hjlt, missUpd_valid]

/-- C3 witness: the first request on a fresh pool of two recycles slot 0. -/
theorem c3_miss_recycles_first_free_witness :
    firstFree (binit 2).bufs = some 0 ∧
      bget (binit 2) 0 5 = Res.ok (0, missState (binit 2) 0 5 0) :=
  ⟨by decide,
   (c3_miss_recycles_first_free (binit 2) 0 5 0 (by decide) (by decide) (by decide)).2.2.1⟩

/-- C6: `brelse` with the lock-ownership precondition satisfied releases the
sleep-lock and then, if `refcnt > 1`, decrements `refcnt` by one and leaves
every bucket list unchanged (the buffer stays attached); if `refcnt == 1` it
sets `refcnt` to 0 and detaches the buffer from every bucket list, making it
eligible for recycling (`firstFree` only selects `refcnt == 0` slots). -/
theorem c6_release_semantics (st : BCache) (i : Nat) (hinv : CacheInv st)
    (hl : (getBuf st i).lockHeld = true) :
    (1 < (getBuf st i).refcnt →
      brelse st i = Res.ok (relseDecState st i) ∧
        (getBuf (relseDecState st i) i).refcnt = (getBuf st i).refcnt - 1 ∧
        (getBuf (relseDecState st i) i).lockHeld = false ∧
        (relseDecState st i).buckets = st.buckets) ∧
    ((getBuf st i).refcnt = 1 →
      brelse st i = Res.ok (relseDetachState st i) ∧
        (getBuf (relseDetachState st i) i).refcnt = 0 ∧
        (getBuf (relseDetachState st i) i).lockHeld = false ∧
        ∀ k ∈ List.range NBUCKET, i ∉ bucketOf (relseDetachState st i) k) := by
  have hi : i < st.bufs.length := by
    by_contra hc
    rw [getBuf_oor st i (Nat.le_of_not_lt hc)] at hl
    exact absurd hl (by decide)
  constructor
  · intro hgt
    have hr : (getBuf st i).refcnt ≠ 1 := by omega
    refine ⟨brelse_dec_eq st i hl hr, ?_, ?_, rfl⟩
    · rw [getBuf_relseDecState_self st i hi, decUpd_refcnt]
      exact dec_mod_u32 _ (by omega) (hinv.2.2.2.1 _ (getBuf_mem st i hi))
    · rw [getBuf_relseDecState_self st i hi, decUpd_lockHeld]
  · intro heq
    refine ⟨brelse_detach_eq st i hl heq, ?_, ?_,
      relseDetachState_detached st i hinv⟩
    · rw [getBuf_relseDetachState_self st i hi, detachUpd_refcnt]
    · rw [getBuf_relseDetachState_self st i hi, detachUpd_lockHeld]

/-- C6 witness: releasing a doubly-held buffer decrements and keeps it
attached; releasing a singly-held buffer zeroes the count and detaches it. -/
theorem c6_release_semantics_witness :
    brelse s9c 0 = Res.ok (relseDecState s9c 0) ∧
      brelse stGet1 0 = Res.ok (relseDetachState stGet1 0) :=
  ⟨((c6_release_semantics s9c 0 (by decide) (by decide)).1 (by decide)).1,
   ((c6_release_semantics stGet1 0 (by decide) (by decide)).2 (by decide)).1⟩

/-- C10: `bunpin` decrements `refcnt` unconditionally — there is no zero check
and no fault (its result type is a plain state) — so on a buffer with
`refcnt == 0` the unsigned counter wraps modulo `2^32` to `U32 - 1`; likewise
the non-detach branch of `brelse` applied at `refcnt == 0` wraps to `U32 - 1`
while leaving every bucket list unchanged.  Since the recycling scan selects
only slots with `refcnt == 0`, such a buffer is no longer selectable. -/
theorem c10_unpin_wraps (st : BCache) (i : Nat) (hi : i < st.bufs.length) :
    (getBuf (bunpin st i) i).refcnt = ((getBuf st i).refcnt + U32 - 1) % U32 ∧
      ((getBuf st i).refcnt = 0 → (getBuf (bunpin st i) i).refcnt = U32 - 1) ∧
      ((getBuf st i).lockHeld = true → (getBuf st i).refcnt = 0 →
        brelse st i = Res.ok (relseDecState st i) ∧
          (getBuf (relseDecState st i) i).refcnt = U32 - 1 ∧
          (relseDecState st i).buckets = st.buckets) ∧
      ∀ bufs j, firstFree bufs = some j → (bufs.getD j buf0).refcnt = 0 := by
  have h1 : (getBuf (bunpin st i) i).refcnt = ((getBuf st i).refcnt + U32 - 1) % U32 := by
    rw [getBuf_bunpin_self st i hi, unpinUpd_refcnt]
  refine ⟨h1, ?_, ?_, ?_⟩
  · intro hz
    rw [h1, hz]
    decide
  · intro hl hz
    have hr : (getBuf st i).refcnt ≠ 1 := by omega
    refine ⟨brelse_dec_eq st i hl hr, ?_, rfl⟩
    rw [getBuf_relseDecState_self st i hi, decUpd_refcnt, hz]
    decide
  · intro bufs j hf
    exact (firstFree_some bufs j hf).2.1

/-- C10 witness: unpinning the singly-referenced attached buffer of `stGet1`
drops the count to 0 (`stUnpin1`); unpinning it once more wraps to
`2^32 - 1`. -/
theorem c10_unpin_wraps_witness :
    (getBuf stUnpin1 0).refcnt = 0 ∧
      (getBuf (bunpin stUnpin1 0) 0).refcnt = U32 - 1 :=
  ⟨by decide, (c10_unpin_wraps stUnpin1 0 (by decide)).2.1 (by decide)⟩

/-- C9 counterexample: a release that leaves the buffer cached does NOT move
it to the head of its bucket's list.  Reached from `binit 2` by
`bget 0 0` (slot 0 at head of bucket 0), `bget 0 13` (slot 1 recycled and
pushed at the head, list `[1, 0]`), a second `bget 0 0` (hit, slot 0 now has
`refcnt = 2`), then `brelse` of slot 0: the buffer stays cached
(`refcnt = 1`, still on the list) but the list is still `[1, 0]` — the head is
slot 1, not the just-released slot 0, contradicting the claimed
move-to-head. -/
theorem c9_release_no_move_to_head_cex :
    bget (binit 2) 0 0 = Res.ok (0, s9a) ∧
      bget s9a 0 13 = Res.ok (1, s9b) ∧
      bget s9b 0 0 = Res.ok (0, s9c) ∧
      brelse s9c 0 = Res.ok s9d ∧
      (getBuf s9d 0).refcnt = 1 ∧
      (0 : Nat) ∈ bucketOf s9d 0 ∧
      bucketOf s9d 0 = [1, 0] ∧
      (bucketOf s9d 0).head? ≠ some 0 :=
  ⟨by decide, by decide, by decide, by decide, by decide, by decide, by decide, by decide⟩

/-- C9 (amended): a release that leaves the buffer cached (`refcnt != 1`)
only decrements the count and releases the lock; it leaves every bucket list —
in particular the list order — exactly unchanged.  The bucket head is the
most-recently-attached buffer: a miss pushes the recycled slot at the head;
release performs no reordering. -/
theorem c9_release_keeps_list_order (st : BCache) (i : Nat)
    (hl : (getBuf st i).lockHeld = true) (hr : (getBuf st i).refcnt ≠ 1) :
    (brelse st i = Res.ok (relseDecState st i) ∧
      (relseDecState st i).buckets = st.buckets) ∧
    ∀ dev blockno j, st.buckets.length = NBUCKET →
      findInBucket st.bufs dev blockno (bucketOf st (blockno % NBUCKET)) = none →
      firstFree st.bufs = some j →
      bget st dev blockno = Res.ok (j, missState st dev blockno j) ∧
        bucketOf (missState st dev blockno j) (blockno % NBUCKET) =
          j :: bucketOf st (blockno % NBUCKET) := by
  refine ⟨⟨brelse_dec_eq st i hl hr, rfl⟩, ?_⟩
  intro dev blockno j hlen hmiss hfree
  exact ⟨bget_miss_eq st dev blockno j hmiss hfree,
    bucketOf_missState_self st dev blockno j hlen⟩

/-- C9 witness: the amended statement applied to the concrete chain of the
counterexample: the release leaves the bucket lists of `s9c` unchanged. -/
theorem c9_release_keeps_list_order_witness :
    brelse s9c 0 = Res.ok (relseDecState s9c 0) ∧
      (relseDecState s9c 0).buckets = s9c.buckets :=
  (c9_release_keeps_list_order s9c 0 (by decide) (by decide)).1

/-- C1 counterexample: the detached-when-zero invariant is NOT preserved by
the public operations.  From `binit 1`, a `bget 0 0` attaches slot 0 with
`refcnt = 1`; a single `bunpin` then drops `refcnt` to 0 *without detaching*
(`bunpin` only decrements), so the reachable state `stUnpin1` has a buffer
with `refcnt == 0` still on bucket 0's list — and in particular an unpin that
brings `refCount` to 0 leaves the buffer attached, not detached. -/
theorem c1_detached_when_zero_cex :
    Reach stUnpin1 ∧ ¬ DetachedWhenZero stUnpin1 :=
  ⟨Reach.step stGet1 stUnpin1
      (Reach.step (binit 1) stGet1 (Reach.init 1)
        (Step.get (binit 1) 0 0 0 stGet1 (by decide)))
      (Step.unpin stGet1 0 (by decide)),
   by decide⟩

/-- C1 (amended): every state satisfying the cache well-formedness invariant
`CacheInv` has all `refcnt == 0` buffers detached from every bucket list, and
the public operations preserve `CacheInv` — `bget`/`bread`/`bpin` under the
no-overflow side condition `RefBound` (no `refcnt` is at `2^32 - 1`),
`bwrite`/`brelse` unconditionally (a `brelse` that drops the count to 0
detaches), and `bunpin` provided it is not applied to an attached buffer with
`refcnt == 1` — the one case, exhibited by the counterexample, in which the
code leaves a zero-count buffer attached. -/
theorem c1_detached_invariant_amended (st : BCache) (hinv : CacheInv st) :
    DetachedWhenZero st ∧
      (∀ dev blockno i st1, RefBound st →
        bget st dev blockno = Res.ok (i, st1) → CacheInv st1) ∧
      (∀ disk dev blockno i st1 ops, RefBound st →
        bread disk st dev blockno = Res.ok (i, st1, ops) → CacheInv st1) ∧
      (∀ i st1 ops, bwrite st i = Res.ok (st1, ops) → CacheInv st1) ∧
      (∀ i st1, brelse st i = Res.ok st1 → CacheInv st1) ∧
      (∀ i, RefBound st → CacheInv (bpin st i)) ∧
      (∀ i, ¬ ((getBuf st i).refcnt = 1 ∧ ∃ k ∈ List.range NBUCKET, i ∈ bucketOf st k) →
        CacheInv (bunpin st i)) := by
  refine ⟨?_, ?_, ?_, ?_, ?_, ?_, ?_⟩
  · intro i hi hz k hk hc
    have hk2 : k ∈ List.range NBUCKET := by
      rw [List.mem_range] at hk ⊢
      rw [hinv.1] at hk
      exact hk
    exact (hinv.2.1 k hk2 i hc).2.2 hz
  · intro dev blockno i st1 hrb h
    exact cacheInv_bget st dev blockno i st1 hinv hrb h
  · intro disk dev blockno i st1 ops hrb h
    exact cacheInv_bread disk st dev blockno i st1 ops hinv hrb h
  · intro i st1 ops h
    exact cacheInv_bwrite st i st1 ops hinv h
  · intro i st1 h
    exact cacheInv_brelse st i st1 hinv h
  · intro i hrb
    exact cacheInv_bpin st i hinv hrb
  · intro i hsafe
    exact cacheInv_bunpin st i hinv hsafe

/-- C1 witness: the amended invariant holds of a concrete well-formed state,
shown by applying the amended theorem at `stGet1`. -/
theorem c1_detached_invariant_amended_witness :
    CacheInv stGet1 ∧ DetachedWhenZero stGet1 :=
  ⟨by decide, (c1_detached_invariant_amended stGet1 (by decide)).1⟩

/-- C2: if a buffer with identity (dev, blockno) is attached to its bucket's
list in a well-formed state, `bget` for that identity returns exactly that
slot (no buffer is recycled, the bucket lists are unchanged), increments its
`refcnt` — by exactly one whenever the 32-bit counter does not wrap — sets
only the lock flag, and leaves its `dev`, `blockno`, `valid` flag and payload
(and every other slot) unchanged; `bget` performs no disk transfer by
construction (only `bread` and `bwrite` produce `DiskOp`s).  Consequently,
along any instrumented run, `refcnt` equals the number of outstanding
un-released holders plus pins of the slot modulo `2^32`, hence exactly
whenever that number is in `[0, 2^32)`. -/
theorem c2_hit_identity_sharing :
    (∀ st dev blockno i, CacheInv st →
      i ∈ bucketOf st (blockno % NBUCKET) →
      (getBuf st i).dev = dev → (getBuf st i).blockno = blockno →
      bget st dev blockno = Res.ok (i, hitState st i) ∧
        (hitState st i).buckets = st.buckets ∧
        (getBuf (hitState st i) i).refcnt = ((getBuf st i).refcnt + 1) % U32 ∧
        ((getBuf st i).refcnt + 1 < U32 →
          (getBuf (hitState st i) i).refcnt = (getBuf st i).refcnt + 1) ∧
        (getBuf (hitState st i) i).dev = (getBuf st i).dev ∧
        (getBuf (hitState st i) i).blockno = (getBuf st i).blockno ∧
        (getBuf (hitState st i) i).valid = (getBuf st i).valid ∧
        (getBuf (hitState st i) i).data = (getBuf st i).data ∧
        ∀ m, i ≠ m → getBuf (hitState st i) m = getBuf st m) ∧
    ∀ st g i, ReachC st g → i < st.bufs.length →
      ((getBuf st i).refcnt : Int) = g i % (U32 : Int) ∧
        (0 ≤ g i → g i < (U32 : Int) → ((getBuf st i).refcnt : Int) = g i) := by
  constructor
  · intro st dev blockno i hinv hmem hd hb
    have hk0 : blockno % NBUCKET ∈ List.range NBUCKET := by
      rw [List.mem_range]
      exact mod_nbucket_lt blockno
    have hi : i < st.bufs.length := (hinv.2.1 _ hk0 i hmem).1
    have hfind : findInBucket st.bufs dev blockno (bucketOf st (blockno % NBUCKET)) = some i :=
      findInBucket_mem_eq st dev blockno _ i hmem hd hb (hinv.2.2.2.2 _ hk0)
    have hself := getBuf_hitState_self st i hi
    refine ⟨bget_hit_eq st dev blockno i hfind, rfl, ?_, ?_, ?_, ?_, ?_, ?_,
      fun m hm => getBuf_hitState_ne st i m hm⟩
    · rw [hself, hitUpd_refcnt]
    · intro hlt
      rw [hself, hitUpd_refcnt]
      exact inc_mod_u32 _ hlt
    · rw [hself, hitUpd_dev]
    · rw [hself, hitUpd_blockno]
    · rw [hself, hitUpd_valid]
    · rw [hself, hitUpd_data]
  · intro st g i hrc hi
    have h1 := reachC_refcnt st g hrc i hi
    refine ⟨h1, ?_⟩
    intro h0 hlt
    rw [h1]
    exact Int.emod_eq_of_lt h0 hlt

/-- C2 witness: a `bget` of the already-attached identity (0,0) in `stGet1`
returns the same slot 0 with `refcnt` bumped; and on the freshly initialised
cache the holders-plus-pins count of slot 0 (zero) equals its `refcnt`. -/
theorem c2_hit_identity_sharing_witness :
    CacheInv stGet1 ∧
      bget stGet1 0 0 = Res.ok (0, hitState stGet1 0) ∧
      ((getBuf (binit 1) 0).refcnt : Int) = 0 :=
  ⟨by decide,
   (c2_hit_identity_sharing.1 stGet1 0 0 0 (by decide) (by decide) (by decide) (by decide)).1,
   (c2_hit_identity_sharing.2 (binit 1) (fun _ => 0) 0 (ReachC.init 1) (by decide)).2
     (by decide) (by decide)⟩

/-- C5: when the buffer returned by the underlying `bget` has `valid = false`,
`bread` performs exactly one disk transfer in read mode (a single `DiskOp`
with `isWrite = false`) and then sets `valid`; when `valid` is already true it
performs no transfer at all (empty trace) and leaves the state exactly as
`bget` produced it.  Consequently, in a well-formed state, after any
successful `bread` of (dev, blockno) a second `bread` of the same identity —
before the buffer is recycled — hits the same slot, transfers nothing, and
only bumps `refcnt` and the lock flag. -/
theorem c5_read_transfer_iff_invalid :
    (∀ disk st dev blockno i stg, bget st dev blockno = Res.ok (i, stg) →
      ((getBuf stg i).valid = false →
        bread disk st dev blockno = Res.ok (i, modifyBuf stg i (fillUpd disk),
          [{ dev := (getBuf stg i).dev, blockno := (getBuf stg i).blockno,
             isWrite := false }]) ∧
          (i < stg.bufs.length →
            (getBuf (modifyBuf stg i (fillUpd disk)) i).valid = true)) ∧
      ((getBuf stg i).valid = true → bread disk st dev blockno = Res.ok (i, stg, []))) ∧
    ∀ disk disk2 st dev blockno i st1 ops, CacheInv st → RefBound st →
      bread disk st dev blockno = Res.ok (i, st1, ops) →
      bread disk2 st1 dev blockno = Res.ok (i, hitState st1 i, []) := by
  constructor
  · intro disk st dev blockno i stg hg
    constructor
    · intro hv
      refine ⟨bread_invalid_eq disk st dev blockno i stg hg hv, ?_⟩
      intro hi
      rw [getBuf_modifyBuf_self stg i (fillUpd disk) hi, fillUpd_valid]
    · intro hv
      exact bread_valid_eq disk st dev blockno i stg hg hv
  · intro disk disk2 st dev blockno i st1 ops hinv hrb h
    have hinv1 : CacheInv st1 := cacheInv_bread disk st dev blockno i st1 ops hinv hrb h
    obtain ⟨hi1, hm1, hd1, hb1, hv1⟩ :=
      bread_ok_attached disk st dev blockno i st1 ops hinv h
    have hk0 : blockno % NBUCKET ∈ List.range NBUCKET := by
      rw [List.mem_range]
      exact mod_nbucket_lt blockno
    have hfind2 : findInBucket st1.bufs dev blockno (bucketOf st1 (blockno % NBUCKET)) =
        some i :=
      findInBucket_mem_eq st1 dev blockno _ i hm1 hd1 hb1 (hinv1.2.2.2.2 _ hk0)
    have hv2 : (getBuf (hitState st1 i) i).valid = true := by
      rw [getBuf_hitState_self st1 i hi1, hitUpd_valid]
      exact hv1
    exact bread_valid_eq disk2 st1 dev blockno i (hitState st1 i)
      (bget_hit_eq st1 dev blockno i hfind2) hv2

/-- C5 witness: the first `bread` of (0,0) on a fresh cache performs exactly
one read transfer; the second `bread` of (0,0) performs none. -/
theorem c5_read_transfer_iff_invalid_witness :
    bread dNull (binit 1) 0 0 =
      Res.ok (0, stRead1, [{ dev := 0, blockno := 0, isWrite := false }]) ∧
      bread dNull stRead1 0 0 = Res.ok (0, hitState stRead1 0, []) := by
  have h1 : bread dNull (binit 1) 0 0 =
      Res.ok (0, modifyBuf stGet1 0 (fillUpd dNull),
        [{ dev := (getBuf stGet1 0).dev, blockno := (getBuf stGet1 0).blockno,
           isWrite := false }]) :=
    ((c5_read_transfer_iff_invalid.1 dNull (binit 1) 0 0 0 stGet1 (by decide)).1
      (by decide)).1
  exact ⟨h1,
    c5_read_transfer_iff_invalid.2 dNull dNull (binit 1) 0 0 0 stRead1
      [{ dev := 0, blockno := 0, isWrite := false }] (by decide) (by decide) h1⟩
